import Mathlib

/-!
Shallow embedding of the puzterm crossword player (src/main.rs, src/puzfile.rs).

Modelling conventions:
- Rust machine integers (u8, u16) are modelled as Nat; the fields involved
  (grid dimensions up to 255, cell counts up to 255*255, clue numbers) never
  reach 2^16 in any execution reachable from a decoded file, so no wraparound
  is modelled.
- Rust String values are modelled by their byte content (List Nat) in the
  decoder, since Rust String.len is a byte length; the char sequence of a
  string is recovered with utf8Decode.  Clue texts, whose bytes are produced
  by a total Latin-1 decoding, are modelled directly as List Char.
- Fallible operations (nom parsers, the clue-list indexing that can panic)
  return Option; none models a parse error or a panic.
- Terminal drawing, the stopwatch, and the tick counter are I/O and are not
  part of the state; every other field of the Rust Game struct is kept.
-/

/-- Cell of the grid, from struct Cell in src/main.rs. -/
structure Cell where
  truth : Option Char
  guess : Option Char
  clue_number : Option Nat
  clue_across : Option (List Char)
  clue_down : Option (List Char)
deriving DecidableEq

/-- Mode enum from src/main.rs. -/
inductive Mode
  | EditAcross
  | EditDown
  | GameOver
  | Select
  | Pause
deriving DecidableEq

/-- Direction enum from src/main.rs. -/
inductive Direction
  | Down
  | Left
  | Right
  | Up
deriving DecidableEq

/-- Abstract key events, from the termion Key values the program matches on. -/
inductive Key
  | Char (c : Char)
  | Ctrl (c : Char)
  | Left
  | Right
  | Up
  | Down
  | Backspace
  | Delete
  | PageUp
  | PageDown
  | Esc
deriving DecidableEq

/-- Game state, from struct Game in src/main.rs (I/O handles, stopwatch,
tick, version, title and author are omitted: they never influence the
grid, cursor or mode). -/
structure Game where
  width : Nat
  height : Nat
  grid : List Cell
  cursor_x : Nat
  cursor_y : Nat
  clues_scroll : Nat
  mode : Mode
  last_edit_mode : Mode
  hint_num_errors : Bool
deriving DecidableEq

/-- GameStatus struct from src/main.rs. -/
structure GameStatus where
  cells : Nat
  guesses : Nat
  errors : Nat
deriving DecidableEq

/-- Placeholder cell used to totalize out-of-bounds reads; the Rust code
would panic there, and no reachable execution performs such a read. -/
def blankCell : Cell :=
  { truth := none, guess := none, clue_number := none,
    clue_across := none, clue_down := none }

/-- Game.get from src/main.rs: index by y * width + x. -/
def Game.get (g : Game) (x y : Nat) : Cell :=
  g.grid.getD (y * g.width + x) blankCell

/-- Game.get_mut followed by a store, as a functional update. -/
def Game.setCell (g : Game) (x y : Nat) (c : Cell) : Game :=
  { g with grid := g.grid.set (y * g.width + x) c }

/-- Game.has_clue_across from src/main.rs. -/
def Game.has_clue_across (g : Game) (x y : Nat) : Bool :=
  if (g.get x y).truth.isNone then false
  else if ((x == 0) || (g.get (x - 1) y).truth.isNone)
          && decide (x < g.width - 1)
          && (g.get (x + 1) y).truth.isSome then true
  else false

/-- Game.has_clue_down from src/main.rs. -/
def Game.has_clue_down (g : Game) (x y : Nat) : Bool :=
  if (g.get x y).truth.isNone then false
  else if ((y == 0) || (g.get x (y - 1)).truth.isNone)
          && decide (y < g.height - 1)
          && (g.get x (y + 1)).truth.isSome then true
  else false

/-- Loop body of Game.get_status from src/main.rs: count a non-block
cell, a guessed cell, and a wrong guess. -/
def statusStep (s : GameStatus) (c : Cell) : GameStatus :=
  { cells := s.cells + (if c.truth.isSome then 1 else 0),
    guesses := s.guesses + (if c.guess.isSome then 1 else 0),
    errors := s.errors +
      (match c.truth, c.guess with
       | some t, some gc => if t ≠ gc then 1 else 0
       | _, _ => 0) }

/-- Game.get_status from src/main.rs: one pass over the grid counting
non-block cells, guessed cells, and wrong guesses. -/
def Game.get_status (g : Game) : GameStatus :=
  g.grid.foldl statusStep { cells := 0, guesses := 0, errors := 0 }

/-- Game.is_game_over from src/main.rs. -/
def Game.is_game_over (g : Game) : Bool :=
  let status := g.get_status
  (status.errors == 0) && (status.cells == status.guesses)

/-- Game.up from src/main.rs: wrapping move up. -/
def Game.up (g : Game) (y : Nat) : Nat :=
  if y = 0 then g.height - 1 else y - 1

/-- Game.down from src/main.rs: wrapping move down. -/
def Game.down (g : Game) (y : Nat) : Nat :=
  if y + 1 = g.height then 0 else y + 1

/-- Game.left from src/main.rs: wrapping move left. -/
def Game.left (g : Game) (x : Nat) : Nat :=
  if x = 0 then g.width - 1 else x - 1

/-- Game.right from src/main.rs: wrapping move right. -/
def Game.right (g : Game) (x : Nat) : Nat :=
  if x + 1 = g.width then 0 else x + 1

/-- Game.edit_left from src/main.rs: non-wrapping, stops at black cells. -/
def Game.edit_left (g : Game) (x y : Nat) : Nat :=
  if x = 0 then x
  else match (g.get (x - 1) y).truth with
    | some _ => x - 1
    | none => x

/-- Game.edit_right from src/main.rs: non-wrapping, stops at black cells. -/
def Game.edit_right (g : Game) (x y : Nat) : Nat :=
  if x + 1 = g.width then x
  else match (g.get (x + 1) y).truth with
    | some _ => x + 1
    | none => x

/-- Game.edit_up from src/main.rs: non-wrapping, stops at black cells. -/
def Game.edit_up (g : Game) (x y : Nat) : Nat :=
  if y = 0 then y
  else match (g.get x (y - 1)).truth with
    | some _ => y - 1
    | none => y

/-- Game.edit_down from src/main.rs: non-wrapping, stops at black cells. -/
def Game.edit_down (g : Game) (x y : Nat) : Nat :=
  if y + 1 = g.height then y
  else match (g.get x (y + 1)).truth with
    | some _ => y + 1
    | none => y

/-- Game.select_move from src/main.rs. -/
def Game.select_move (g : Game) (d : Direction) : Game :=
  match d with
  | .Up => { g with cursor_y := g.up g.cursor_y }
  | .Down => { g with cursor_y := g.down g.cursor_y }
  | .Left => { g with cursor_x := g.left g.cursor_x }
  | .Right => { g with cursor_x := g.right g.cursor_x }

/-- Game.edit_move from src/main.rs. -/
def Game.edit_move (g : Game) (d : Direction) : Game :=
  match d with
  | .Up => { g with cursor_y := g.edit_up g.cursor_x g.cursor_y }
  | .Down => { g with cursor_y := g.edit_down g.cursor_x g.cursor_y }
  | .Left => { g with cursor_x := g.edit_left g.cursor_x g.cursor_y }
  | .Right => { g with cursor_x := g.edit_right g.cursor_x g.cursor_y }

/-- Game.edit_mode from src/main.rs: enter an edit mode, refused on a
black cell. -/
def Game.edit_mode (g : Game) : Game :=
  if (g.get g.cursor_x g.cursor_y).truth.isNone then g
  else
    let m :=
      match (g.get g.cursor_x g.cursor_y).clue_across,
            (g.get g.cursor_x g.cursor_y).clue_down with
      | some _, none => Mode.EditAcross
      | none, some _ => Mode.EditDown
      | _, _ => g.last_edit_mode
    { g with mode := m, last_edit_mode := m }

/-- Game.edit_direction from src/main.rs. -/
def Game.edit_direction (g : Game) : Game :=
  let m := match g.mode with
    | .EditDown => Mode.EditAcross
    | _ => Mode.EditDown
  { g with mode := m, last_edit_mode := m }

/-- Game.select_mode from src/main.rs. -/
def Game.select_mode (g : Game) : Game :=
  { g with mode := .Select }

/-- Game.game_over_mode from src/main.rs (drawing and stopwatch omitted). -/
def Game.game_over_mode (g : Game) : Game :=
  { g with mode := .GameOver }

/-- Uppercasing used by Game.input: the Rust code takes the first char of
c.to_uppercase().  For the ASCII alphanumeric characters accepted by the
input match arm that expansion is the single char given by Char.toUpper,
which is how the std uppercasing is modelled here. -/
def charUppercaseFirst (c : Char) : Char :=
  c.toUpper

/-- Game.input from src/main.rs: store an uppercased guess at the cursor,
then advance via edit_next. -/
def Game.edit_next (g : Game) : Game :=
  match g.mode with
  | .EditAcross => g.edit_move .Right
  | .EditDown => g.edit_move .Down
  | _ => g

/-- Game.edit_prev from src/main.rs. -/
def Game.edit_prev (g : Game) : Game :=
  match g.mode with
  | .EditAcross => g.edit_move .Left
  | .EditDown => g.edit_move .Up
  | _ => g

/-- Game.input from src/main.rs. -/
def Game.input (g : Game) (c : Char) : Game :=
  let upper := charUppercaseFirst c
  let g1 := g.setCell g.cursor_x g.cursor_y
    { g.get g.cursor_x g.cursor_y with guess := some upper }
  g1.edit_next

/-- Game.unguess from src/main.rs. -/
def Game.unguess (g : Game) : Game :=
  g.setCell g.cursor_x g.cursor_y
    { g.get g.cursor_x g.cursor_y with guess := none }

/-- Game.clues_scroll_up from src/main.rs. -/
def Game.clues_scroll_up (g : Game) : Game :=
  if g.clues_scroll ≤ 5 then { g with clues_scroll := 0 }
  else { g with clues_scroll := g.clues_scroll - 5 }

/-- Game.clues_scroll_down from src/main.rs. -/
def Game.clues_scroll_down (g : Game) : Game :=
  { g with clues_scroll := g.clues_scroll + 5 }

/-- Game.pause from src/main.rs (stopwatch omitted). -/
def Game.pause (g : Game) : Game :=
  { g with mode := .Pause }

/-- Game.unpause from src/main.rs. -/
def Game.unpause (g : Game) : Game :=
  { g with mode := .Select }

/-- Game.toggle_hint_num_errors from src/main.rs. -/
def Game.toggle_hint_num_errors (g : Game) : Game :=
  { g with hint_num_errors := !g.hint_num_errors }

/-- Alphanumeric test guarding character input; the Rust code calls
char::is_alphanumeric, modelled on its ASCII fragment by Char.isAlphanum. -/
def charIsAlphanumeric (c : Char) : Bool :=
  c.isAlphanum

/-- Pause-mode arm of the match in Game.update. -/
def stepKeyPause (g : Game) (k : Key) : Game × Bool :=
  match k with
  | .Char c =>
    if c = 'p' ∨ c = '\n' then (g.unpause, true)
    else if c = 'q' then (g, false)
    else (g, true)
  | .Esc => (g.unpause, true)
  | .Ctrl c => if c = 'c' then (g, false) else (g, true)
  | _ => (g, true)

/-- Select-mode arm of the match in Game.update. -/
def stepKeySelect (g : Game) (k : Key) : Game × Bool :=
  match k with
  | .PageUp => (g.clues_scroll_up, true)
  | .PageDown => (g.clues_scroll_down, true)
  | .Left => (g.select_move .Left, true)
  | .Down => (g.select_move .Down, true)
  | .Up => (g.select_move .Up, true)
  | .Right => (g.select_move .Right, true)
  | .Esc => (g.pause, true)
  | .Ctrl c => if c = 'c' then (g.pause, true) else (g, true)
  | .Char c =>
    if c = 'h' ∨ c = 'a' then (g.select_move .Left, true)
    else if c = 'j' ∨ c = 's' then (g.select_move .Down, true)
    else if c = 'k' ∨ c = 'w' then (g.select_move .Up, true)
    else if c = 'l' ∨ c = 'd' then (g.select_move .Right, true)
    else if c = 'q' ∨ c = 'p' then (g.pause, true)
    else if c = 'e' then (g.toggle_hint_num_errors, true)
    else if c = '\n' ∨ c = 'i' then (g.edit_mode, true)
    else (g, true)
  | _ => (g, true)

/-- Edit-mode arm of the match in Game.update, shared by EditAcross and
EditDown exactly as in the source. -/
def stepKeyEdit (g : Game) (k : Key) : Game × Bool :=
  match k with
  | .Delete => (g.unguess, true)
  | .PageUp => (g.clues_scroll_up, true)
  | .PageDown => (g.clues_scroll_down, true)
  | .Backspace => (g.edit_prev, true)
  | .Left => (g.edit_move .Left, true)
  | .Down => (g.edit_move .Down, true)
  | .Up => (g.edit_move .Up, true)
  | .Right => (g.edit_move .Right, true)
  | .Esc => (g.select_mode, true)
  | .Char c =>
    if c = '\n' then (g.select_mode, true)
    else if c = ' ' then (g.edit_direction, true)
    else if charIsAlphanumeric c then (g.input c, true)
    else (g, true)
  | _ => (g, true)

/-- One key event of Game.update from src/main.rs.  The Bool is the value
update would contribute: false means the session ends (the loop in
Game.start breaks).  The match arms follow the source order exactly. -/
def stepKey (g : Game) (k : Key) : Game × Bool :=
  match g.mode with
  | .Pause => stepKeyPause g k
  | .Select => stepKeySelect g k
  | .EditAcross => stepKeyEdit g k
  | .EditDown => stepKeyEdit g k
  | .GameOver => (g, false)

/-- The inner while-let of Game.update: drain the buffered key events in
order; none means update returned false and the session ends. -/
def processKeys : Game → List Key → Option Game
  | g, [] => some g
  | g, k :: ks =>
    match stepKey g k with
    | (g1, true) => processKeys g1 ks
    | (_, false) => none

/-- The game-over check performed once per loop iteration in Game.start,
right after update returns. -/
def checkGameOver (g : Game) : Game :=
  match g.mode with
  | .GameOver => g
  | _ => if g.is_game_over then g.game_over_mode else g

/-- One iteration of the polling loop in Game.start: drain the pending key
events, then run the game-over check.  none means the session ended. -/
def pollCycle (g : Game) (ks : List Key) : Option Game :=
  match processKeys g ks with
  | some g1 => some (checkGameOver g1)
  | none => none

/-- States reachable from a given initial state by whole polling
iterations, each consuming some batch of buffered key events. -/
inductive Reachable (g0 : Game) : Game → Prop
  | refl : Reachable g0 g0
  | step {g g1 : Game} (ks : List Key) :
      Reachable g0 g → pollCycle g ks = some g1 → Reachable g0 g1

/-- Continuation-byte test for UTF-8. -/
def isUtf8Cont (b : Nat) : Bool :=
  0x80 ≤ b && b ≤ 0xBF

/-- UTF-8 decoding of a byte sequence, with the exact acceptance rules of
str::from_utf8 (RFC 3629 shortest forms, surrogates excluded); none on
invalid input.  The produced chars model String::chars. -/
def utf8Decode : List Nat → Option (List Char)
  | [] => some []
  | b :: rest =>
    if b ≤ 0x7F then
      (utf8Decode rest).map (fun cs => Char.ofNat b :: cs)
    else if b < 0xC2 then none
    else if b ≤ 0xDF then
      match rest with
      | c1 :: r =>
        if isUtf8Cont c1 then
          (utf8Decode r).map (fun cs =>
            Char.ofNat ((b - 0xC0) * 64 + (c1 - 0x80)) :: cs)
        else none
      | [] => none
    else if b ≤ 0xEF then
      match rest with
      | c1 :: c2 :: r =>
        if (if b = 0xE0 then 0xA0 ≤ c1 && c1 ≤ 0xBF
            else if b = 0xED then 0x80 ≤ c1 && c1 ≤ 0x9F
            else isUtf8Cont c1) && isUtf8Cont c2 then
          (utf8Decode r).map (fun cs =>
            Char.ofNat ((b - 0xE0) * 4096 + (c1 - 0x80) * 64 + (c2 - 0x80)) :: cs)
        else none
      | _ => none
    else if b ≤ 0xF4 then
      match rest with
      | c1 :: c2 :: c3 :: r =>
        if (if b = 0xF0 then 0x90 ≤ c1 && c1 ≤ 0xBF
            else if b = 0xF4 then 0x80 ≤ c1 && c1 ≤ 0x8F
            else isUtf8Cont c1) && isUtf8Cont c2 && isUtf8Cont c3 then
          (utf8Decode r).map (fun cs =>
            Char.ofNat ((b - 0xF0) * 262144 + (c1 - 0x80) * 4096
              + (c2 - 0x80) * 64 + (c3 - 0x80)) :: cs)
        else none
      | _ => none
    else none

/-- Latin-1 decoding used for null-terminated strings: the encoding crate
ISO_8859_1 table maps every byte to the same code point, so it is total. -/
def latin1Decode (bs : List Nat) : List Char :=
  bs.map Char.ofNat

/-- PuzFile record from src/puzfile.rs.  String fields parsed through
str::from_utf8 keep their byte content (see the module comment); fields
decoded through ISO_8859_1 are kept as chars. -/
structure PuzFile where
  preamble : List Nat
  checksum : Nat
  magic : List Char
  cib_checksum : Nat
  masked_low_checksum_1 : Nat
  masked_low_checksum_2 : Nat
  masked_high_checksum_1 : Nat
  masked_high_checksum_2 : Nat
  version : List Nat
  reserved_1 : Nat
  scrambled_checksum : Nat
  reserved_2 : List Nat
  width : Nat
  height : Nat
  num_clues : Nat
  unknown_bitmask : Nat
  scrambled : Nat
  puzzle : List Nat
  state : List Nat
  title : List Char
  author : List Char
  copyright : List Char
  clues : List (List Char)
  notes : List Char
deriving DecidableEq

/-- Option bind, kept out of line so that the code generator does not
duplicate the long parser chain below; definitionally Option.bind. -/
@[noinline] def obind {A B : Type} (x : Option A) (f : A → Option B) :
    Option B :=
  match x with
  | some a => f a
  | none => none

/-- The nom take combinator: n bytes, failing on a short buffer. -/
def pTake (n : Nat) (s : List Nat) : Option (List Nat × List Nat) :=
  if n ≤ s.length then some (s.take n, s.drop n) else none

/-- The nom le_u8 parser. -/
def pLeU8 (s : List Nat) : Option (Nat × List Nat) :=
  match s with
  | b :: r => some (b, r)
  | [] => none

/-- The nom le_u16 parser. -/
def pLeU16 (s : List Nat) : Option (Nat × List Nat) :=
  match s with
  | a :: b :: r => some (a + 256 * b, r)
  | _ => none

/-- The take_until combinator for the null terminator: bytes strictly
before the first 0, failing when no 0 exists; the input is left at the 0. -/
def takeUntilZero : List Nat → Option (List Nat × List Nat)
  | [] => none
  | b :: r =>
    if b = 0 then some ([], b :: r)
    else (takeUntilZero r).map (fun pr => (b :: pr.1, pr.2))

/-- The null_string_ascii parser from src/puzfile.rs: take_until the null,
skip it, decode the bytes with the total Latin-1 table. -/
def pNullString (s : List Nat) : Option (List Char × List Nat) :=
  (takeUntilZero s).bind fun pr =>
  (pTake 1 pr.2).bind fun pr2 =>
  some (latin1Decode pr.1, pr2.2)

/-- Bytes of the ACROSS and DOWN magic marker. -/
def magicBytes : List Nat :=
  [65, 67, 82, 79, 83, 83, 38, 68, 79, 87, 78]

/-- Test used while scanning for the header: does the magic marker start 2
bytes further on, so that a checksum field starts here. -/
def checksumAt (s : List Nat) : Bool :=
  magicBytes.isPrefixOf (s.drop 2)

/-- The opt(many_till(take(1), peek(checksum))) preamble scan of
parse_all: collect bytes until a checksum-plus-magic position is reached;
the following checksum parse fails anyway when the marker never occurs,
which none models. -/
def scanPreamble : List Nat → Option (List Nat × List Nat)
  | [] => if checksumAt [] then some ([], []) else none
  | b :: r =>
    if checksumAt (b :: r) then some ([], b :: r)
    else (scanPreamble r).map (fun pr => (b :: pr.1, pr.2))

/-- The checksum parser of src/puzfile.rs: terminated(take(2),
peek(tag(magic))) flat_mapped through le_u16. -/
def pChecksum (s : List Nat) : Option (Nat × List Nat) :=
  (pTake 2 s).bind fun t =>
  if magicBytes.isPrefixOf t.2 then
    (pLeU16 t.1).map (fun u => (u.1, t.2))
  else none

/-- The map_res(take(n), str::from_utf8) pattern: n raw bytes that must
form valid UTF-8.  The bytes are returned (they are the String content). -/
def pTakeUtf8 (n : Nat) (s : List Nat) : Option (List Nat × List Nat) :=
  (pTake n s).bind fun t =>
  if (utf8Decode t.1).isSome then some (t.1, t.2) else none

/-- The many_m_n(n, n, p) combinator: exactly n runs of p. -/
def pCount {α : Type} (n : Nat) (p : List Nat → Option (α × List Nat))
    (s : List Nat) : Option (List α × List Nat) :=
  match n with
  | 0 => some ([], s)
  | m + 1 =>
    (p s).bind fun a =>
    (pCount m p a.2).bind fun b =>
    some (a.1 :: b.1, b.2)

/-- parse_all from src/puzfile.rs, field for field in source order. -/
def parse_all (s : List Nat) : Option (PuzFile × List Nat) :=
  obind (scanPreamble s) (fun pre =>
  obind (pChecksum pre.2) (fun cks =>
  obind (pNullString cks.2) (fun magic =>
  obind (pLeU16 magic.2) (fun cib =>
  obind (pLeU16 cib.2) (fun ml1 =>
  obind (pLeU16 ml1.2) (fun ml2 =>
  obind (pLeU16 ml2.2) (fun mh1 =>
  obind (pLeU16 mh1.2) (fun mh2 =>
  obind (pTakeUtf8 4 mh2.2) (fun ver =>
  obind (pLeU16 ver.2) (fun res1 =>
  obind (pLeU16 res1.2) (fun scks =>
  obind (pTake 12 scks.2) (fun res2 =>
  obind (pLeU8 res2.2) (fun w =>
  obind (pLeU8 w.2) (fun h =>
  obind (pLeU16 h.2) (fun ncl =>
  obind (pLeU16 ncl.2) (fun ubm =>
  obind (pLeU16 ubm.2) (fun scr =>
  obind (pTakeUtf8 (w.1 * h.1) scr.2) (fun puz =>
  obind (pTakeUtf8 (w.1 * h.1) puz.2) (fun st =>
  obind (pNullString st.2) (fun title =>
  obind (pNullString title.2) (fun author =>
  obind (pNullString author.2) (fun copyr =>
  obind (pCount ncl.1 pNullString copyr.2) (fun cl =>
  obind (pNullString cl.2) (fun notes =>
  some
    ({ preamble := pre.1,
       checksum := cks.1,
       magic := magic.1,
       cib_checksum := cib.1,
       masked_low_checksum_1 := ml1.1,
       masked_low_checksum_2 := ml2.1,
       masked_high_checksum_1 := mh1.1,
       masked_high_checksum_2 := mh2.1,
       version := ver.1,
       reserved_1 := res1.1,
       scrambled_checksum := scks.1,
       reserved_2 := res2.1,
       width := w.1,
       height := h.1,
       num_clues := ncl.1,
       unknown_bitmask := ubm.1,
       scrambled := scr.1,
       puzzle := puz.1,
       state := st.1,
       title := title.1,
       author := author.1,
       copyright := copyr.1,
       clues := cl.1,
       notes := notes.1 }, notes.2)))))))))))))))))))))))))

/-- Cell built by the first loop of init in src/main.rs: a dot is a block. -/
def mkCell (c : Char) : Cell :=
  { truth := if c = '.' then none else some c,
    guess := none, clue_number := none,
    clue_across := none, clue_down := none }

/-- Grid built by the first loop of init. -/
def buildGrid (puzzle : List Char) : List Cell :=
  puzzle.map mkCell

/-- Game value as constructed in init before the numbering pass. -/
def mkGame (w h : Nat) (puzzle : List Char) : Game :=
  { width := w, height := h, grid := buildGrid puzzle,
    cursor_x := 0, cursor_y := 0, clues_scroll := 0,
    mode := .Select, last_edit_mode := .EditAcross,
    hint_num_errors := false }

/-- Body of the numbering loop of init for one cell: consume a clue for an
across start, then one for a down start, then assign the running number.
The p.clues[clue_index] indexing is unchecked in the source and panics out
of bounds; none models that panic. -/
def processCell (clues : List (List Char)) (g : Game) (x y n idx : Nat) :
    Option (Game × Nat × Nat) :=
  let across := g.has_clue_across x y
  let down := g.has_clue_down x y
  let c0 := g.get x y
  let step1 : Option (Cell × Nat) :=
    if across then
      match clues[idx]? with
      | some s => some ({ c0 with clue_across := some s }, idx + 1)
      | none => none
    else some (c0, idx)
  match step1 with
  | none => none
  | some (c1, idx1) =>
    let step2 : Option (Cell × Nat) :=
      if down then
        match clues[idx1]? with
        | some s => some ({ c1 with clue_down := some s }, idx1 + 1)
        | none => none
      else some (c1, idx1)
    match step2 with
    | none => none
    | some (c2, idx2) =>
      let c3 := if across || down then { c2 with clue_number := some n } else c2
      let nn := if across || down then n + 1 else n
      some (g.setCell x y c3, nn, idx2)

/-- The numbering loop of init over a list of positions, threading the
clue counter and the clue index. -/
def numberCells (clues : List (List Char)) :
    List (Nat × Nat) → Game → Nat → Nat → Option (Game × Nat × Nat)
  | [], g, n, idx => some (g, n, idx)
  | q :: ps, g, n, idx =>
    match processCell clues g q.1 q.2 n idx with
    | some (g1, n1, idx1) => numberCells clues ps g1 n1 idx1
    | none => none

/-- Row-major scan order of init: y outer, x inner. -/
def scanOrder (w h : Nat) : List (Nat × Nat) :=
  (List.range h).flatMap fun y => (List.range w).map fun x => (x, y)

/-- The whole of init (drawing omitted): build the grid, then run the
numbering pass from clue number 1 and clue index 0, returning the final
game, clue counter and clue index. -/
def initNumberedFull (w h : Nat) (puzzle : List Char)
    (clues : List (List Char)) : Option (Game × Nat × Nat) :=
  numberCells clues (scanOrder w h) (mkGame w h puzzle) 1 0

/-- The game produced by init, none when the numbering pass panics. -/
def initNumbered (w h : Nat) (puzzle : List Char)
    (clues : List (List Char)) : Option Game :=
  (initNumberedFull w h puzzle clues).map (fun r => r.1)

/-- init applied to a decoded PuzFile, as called from main. -/
def initP (p : PuzFile) : Option Game :=
  initNumbered p.width p.height ((utf8Decode p.puzzle).getD []) p.clues

/-- Buffer of a well-formed 3 by 3 test file: grid PUZ / O.O / POO with
four clues, the fixture of the repository test assets/test2.puz. -/
def buf33 : List Nat := [52, 18, 65, 67, 82, 79, 83, 83, 38, 68, 79, 87, 78, 0, 1, 0, 2, 0, 3, 0, 4, 0, 5, 0, 49, 46, 51, 0, 6, 0, 7, 0, 0, 0, 0, 0, 0, 0, 0, 0, 0, 0, 0, 0, 3, 3, 4, 0, 0, 0, 0, 0, 80, 85, 90, 79, 46, 79, 80, 79, 79, 45, 45, 45, 45, 45, 45, 45, 45, 45, 84, 0, 65, 0, 67, 0, 65, 111, 110, 101, 0, 68, 111, 110, 101, 0, 68, 116, 119, 111, 0, 65, 116, 119, 111, 0, 78, 0]

/-- Buffer of a decodable file whose 2 by 1 puzzle grid block is the
UTF-8 encoding of a single non-ASCII char: bytes 195, 169. -/
def bufC8 : List Nat := [52, 18, 65, 67, 82, 79, 83, 83, 38, 68, 79, 87, 78, 0, 1, 0, 2, 0, 3, 0, 4, 0, 5, 0, 49, 46, 51, 0, 6, 0, 7, 0, 0, 0, 0, 0, 0, 0, 0, 0, 0, 0, 0, 0, 2, 1, 0, 0, 0, 0, 0, 0, 195, 169, 45, 45, 84, 0, 65, 0, 67, 0, 78, 0]

/-- Buffer of a decodable file with a 2 by 1 all-letter grid but
num_clues = 0, so the numbering pass indexes an empty clue list. -/
def bufC4 : List Nat := [52, 18, 65, 67, 82, 79, 83, 83, 38, 68, 79, 87, 78, 0, 1, 0, 2, 0, 3, 0, 4, 0, 5, 0, 49, 46, 51, 0, 6, 0, 7, 0, 0, 0, 0, 0, 0, 0, 0, 0, 0, 0, 0, 0, 2, 1, 0, 0, 0, 0, 0, 0, 65, 65, 45, 45, 84, 0, 65, 0, 67, 0, 78, 0]

/-- PuzFile with every field empty, used only as a getD fallback. -/
def emptyPuz : PuzFile :=
  { preamble := [], checksum := 0, magic := [], cib_checksum := 0,
    masked_low_checksum_1 := 0, masked_low_checksum_2 := 0,
    masked_high_checksum_1 := 0, masked_high_checksum_2 := 0,
    version := [], reserved_1 := 0, scrambled_checksum := 0,
    reserved_2 := [], width := 0, height := 0, num_clues := 0,
    unknown_bitmask := 0, scrambled := 0, puzzle := [], state := [],
    title := [], author := [], copyright := [], clues := [], notes := [] }

/-- The PuzFile decoded from buf33. -/
def pf33 : PuzFile :=
  ((parse_all buf33).getD (emptyPuz, [])).1

/-- The PuzFile decoded from bufC8. -/
def pfC8 : PuzFile :=
  ((parse_all bufC8).getD (emptyPuz, [])).1

/-- The PuzFile decoded from bufC4. -/
def pfC4 : PuzFile :=
  ((parse_all bufC4).getD (emptyPuz, [])).1

/-- Wraparound one-step movement in Select mode, as C6 states it: every
directional move shifts the cursor by exactly one cell, wrapping at the
four grid edges, regardless of block cells. -/
def selectMoveSpec (g : Game) : Prop :=
  ((stepKey g .Left).1.cursor_x
      = (if g.cursor_x = 0 then g.width - 1 else g.cursor_x - 1) ∧
    (stepKey g .Left).1.cursor_y = g.cursor_y) ∧
  ((stepKey g .Right).1.cursor_x
      = (if g.cursor_x + 1 = g.width then 0 else g.cursor_x + 1) ∧
    (stepKey g .Right).1.cursor_y = g.cursor_y) ∧
  ((stepKey g .Up).1.cursor_y
      = (if g.cursor_y = 0 then g.height - 1 else g.cursor_y - 1) ∧
    (stepKey g .Up).1.cursor_x = g.cursor_x) ∧
  ((stepKey g .Down).1.cursor_y
      = (if g.cursor_y + 1 = g.height then 0 else g.cursor_y + 1) ∧
    (stepKey g .Down).1.cursor_x = g.cursor_x)

/-- Non-wrapping, block-stopping one-step movement in the edit modes, as
C6 states it: a move that would cross the grid boundary or land on a
block cell leaves the cursor unchanged, otherwise it shifts by one. -/
def editMoveSpec (g : Game) : Prop :=
  ((stepKey g .Left).1.cursor_x
      = (if g.cursor_x = 0 ∨ (g.get (g.cursor_x - 1) g.cursor_y).truth = none
         then g.cursor_x else g.cursor_x - 1) ∧
    (stepKey g .Left).1.cursor_y = g.cursor_y) ∧
  ((stepKey g .Right).1.cursor_x
      = (if g.cursor_x + 1 = g.width
            ∨ (g.get (g.cursor_x + 1) g.cursor_y).truth = none
         then g.cursor_x else g.cursor_x + 1) ∧
    (stepKey g .Right).1.cursor_y = g.cursor_y) ∧
  ((stepKey g .Up).1.cursor_y
      = (if g.cursor_y = 0 ∨ (g.get g.cursor_x (g.cursor_y - 1)).truth = none
         then g.cursor_y else g.cursor_y - 1) ∧
    (stepKey g .Up).1.cursor_x = g.cursor_x) ∧
  ((stepKey g .Down).1.cursor_y
      = (if g.cursor_y + 1 = g.height
            ∨ (g.get g.cursor_x (g.cursor_y + 1)).truth = none
         then g.cursor_y else g.cursor_y + 1) ∧
    (stepKey g .Down).1.cursor_x = g.cursor_x)

/-- Effect of an accepted character key in edit mode, as C7 states it:
the first char of the uppercase expansion is stored as the guess of the
cell under the cursor, no other guess changes, and the cursor advances
one step in the edit direction under the non-wrapping block-stopping
rule. -/
def inputSpec (g : Game) (c : Char) : Prop :=
  ((stepKey g (Key.Char c)).1.grid[g.cursor_y * g.width + g.cursor_x]?).map
      Cell.guess = some (some (charUppercaseFirst c)) ∧
  (∀ i, i ≠ g.cursor_y * g.width + g.cursor_x →
    ((stepKey g (Key.Char c)).1.grid[i]?).map Cell.guess
      = (g.grid[i]?).map Cell.guess) ∧
  (g.mode = .EditAcross →
    (stepKey g (Key.Char c)).1.cursor_x
        = (if g.cursor_x + 1 = g.width
              ∨ (g.get (g.cursor_x + 1) g.cursor_y).truth = none
           then g.cursor_x else g.cursor_x + 1) ∧
    (stepKey g (Key.Char c)).1.cursor_y = g.cursor_y) ∧
  (g.mode = .EditDown →
    (stepKey g (Key.Char c)).1.cursor_y
        = (if g.cursor_y + 1 = g.height
              ∨ (g.get g.cursor_x (g.cursor_y + 1)).truth = none
           then g.cursor_y else g.cursor_y + 1) ∧
    (stepKey g (Key.Char c)).1.cursor_x = g.cursor_x)

/-- The intermediate game of Game.input, right after the guess store and
before edit_next runs. -/
def inputStore (g : Game) (c : Char) : Game :=
  g.setCell g.cursor_x g.cursor_y
    { g.get g.cursor_x g.cursor_y with
        guess := some (charUppercaseFirst c) }

/-- A concrete solved 1 by 1 game used by witnesses. -/
def gSolved : Game :=
  { width := 1, height := 1,
    grid := [{ truth := some 'A', guess := some 'A', clue_number := none,
               clue_across := none, clue_down := none }],
    cursor_x := 0, cursor_y := 0, clues_scroll := 0,
    mode := .Select, last_edit_mode := .EditAcross,
    hint_num_errors := false }

/-- Number of clue-list entries the numbering pass consumes at one cell:
one for an across start plus one for a down start. -/
def consumeCount (g : Game) (q : Nat × Nat) : Nat :=
  (if g.has_clue_across q.1 q.2 then 1 else 0)
    + (if g.has_clue_down q.1 q.2 then 1 else 0)

/-- Whether a cell starts an entry, so receives a clue number. -/
def startB (g : Game) (q : Nat × Nat) : Bool :=
  g.has_clue_across q.1 q.2 || g.has_clue_down q.1 q.2

/-- Number of entry-start cells among a list of positions. -/
def countStarts (g : Game) (ps : List (Nat × Nat)) : Nat :=
  ps.countP (startB g)

/-- Total clue consumption over a list of positions. -/
def countConsumed (g : Game) (ps : List (Nat × Nat)) : Nat :=
  (ps.map (consumeCount g)).sum

/-- Value the numbering pass leaves in one cell, given the clue counter n
and clue index idx it carries when the scan reaches that cell. -/
def finalCell (g : Game) (clues : List (List Char)) (n idx : Nat)
    (q : Nat × Nat) : Cell :=
  { g.get q.1 q.2 with
    clue_across :=
      if g.has_clue_across q.1 q.2 then clues[idx]?
      else (g.get q.1 q.2).clue_across,
    clue_down :=
      if g.has_clue_down q.1 q.2 then
        clues[idx + (if g.has_clue_across q.1 q.2 then 1 else 0)]?
      else (g.get q.1 q.2).clue_down,
    clue_number :=
      if g.has_clue_across q.1 q.2 || g.has_clue_down q.1 q.2 then some n
      else (g.get q.1 q.2).clue_number }

/-- The positions the row-major scan visits strictly before flat index j. -/
def scanBefore (w j : Nat) : List (Nat × Nat) :=
  (List.range j).map fun k => (k % w, k / w)

/-- What C1 states about the numbered grid: clue numbers are assigned
exactly at entry-start cells, counting from 1 upward in row-major scan
order, one increment per start cell; the across clue is consumed before
the down clue at a doubly-starting cell; numbers are strictly increasing
in scan order. -/
def numberingConcl (w h : Nat) (puzzle : List Char)
    (clues : List (List Char)) (gout : Game) : Prop :=
  (∀ x y : Nat, x < w → y < h →
    ((gout.get x y).clue_number
        = (if startB (mkGame w h puzzle) (x, y)
           then some (1 + countStarts (mkGame w h puzzle)
             (scanBefore w (y * w + x)))
           else none)) ∧
    ((gout.get x y).clue_across
        = (if (mkGame w h puzzle).has_clue_across x y
           then clues[countConsumed (mkGame w h puzzle)
             (scanBefore w (y * w + x))]?
           else none)) ∧
    ((gout.get x y).clue_down
        = (if (mkGame w h puzzle).has_clue_down x y
           then clues[countConsumed (mkGame w h puzzle)
               (scanBefore w (y * w + x))
             + (if (mkGame w h puzzle).has_clue_across x y then 1 else 0)]?
           else none))) ∧
  (∀ x1 y1 x2 y2 n1 n2 : Nat, x1 < w → y1 < h → x2 < w → y2 < h →
    y1 * w + x1 < y2 * w + x2 →
    (gout.get x1 y1).clue_number = some n1 →
    (gout.get x2 y2).clue_number = some n2 → n1 < n2)

/-- The 3 by 3 fixture grid PUZ / O.O / POO as chars. -/
def pz33 : List Char := ['P', 'U', 'Z', 'O', '.', 'O', 'P', 'O', 'O']

/-- Four clue texts for the 3 by 3 fixture. -/
def cl33 : List (List Char) :=
  [['A', 'o', 'n', 'e'], ['D', 'o', 'n', 'e'],
   ['D', 't', 'w', 'o'], ['A', 't', 'w', 'o']]

/-- The numbered game of the 3 by 3 fixture. -/
def g33 : Game := (initNumbered 3 3 pz33 cl33).getD (mkGame 3 3 pz33)

/-- The C9 edit-mode invariant: in an edit mode the cell under the
cursor is non-block. -/
def editInv (g : Game) : Prop :=
  (g.mode = .EditAcross ∨ g.mode = .EditDown) →
    ((g.get g.cursor_x g.cursor_y).truth).isSome = true

/-- The C9 block-cell invariant: every block cell has no guess. -/
def blockGuessNone (g : Game) : Prop :=
  ∀ i : Nat, ∀ c : Cell, g.grid[i]? = some c → c.truth = none →
    c.guess = none

/-- The edit-mode state reached from the 3 by 3 fixture by pressing i. -/
def g33e : Game := (pollCycle g33 [Key.Char 'i']).getD g33

/-! Parser lemmas. -/

theorem obind_eq_some {A B : Type} {x : Option A} {f : A → Option B}
    {b : B} : obind x f = some b ↔ ∃ a, x = some a ∧ f a = some b := by
  cases x <;> simp [obind]

theorem pTake_length {n : Nat} {s : List Nat} {pr : List Nat × List Nat}
    (h : pTake n s = some pr) : pr.1.length = n := by
  unfold pTake at h
  split at h
  · cases h
    simpa using Nat.min_eq_left (by assumption)
  · cases h

theorem pTakeUtf8_some {n : Nat} {s : List Nat} {pr : List Nat × List Nat}
    (h : pTakeUtf8 n s = some pr) :
    pr.1.length = n ∧ (utf8Decode pr.1).isSome = true := by
  unfold pTakeUtf8 at h
  rw [Option.bind_eq_some] at h
  obtain ⟨t, ht, hif⟩ := h
  split at hif
  · cases hif
    exact ⟨pTake_length ht, by assumption⟩
  · cases hif

theorem pCount_length {α : Type} {p : List Nat → Option (α × List Nat)} :
    ∀ {n : Nat} {s : List Nat} {pr : List α × List Nat},
      pCount n p s = some pr → pr.1.length = n := by
  intro n
  induction n with
  | zero =>
    intro s pr h
    cases h
    rfl
  | succ m ih =>
    intro s pr h
    unfold pCount at h
    rw [Option.bind_eq_some] at h
    obtain ⟨a, _, h⟩ := h
    rw [Option.bind_eq_some] at h
    obtain ⟨b, hb, h⟩ := h
    cases h
    simpa using ih hb

/-- C3: for every byte buffer on which decode succeeds, the returned
PuzFile has a puzzle block and a state block of exactly width * height
bytes and exactly num_clues clue strings; the parsers fail (and with them
the whole decode) rather than truncate or pad when the buffer runs out. -/
theorem c3_decoded_lengths (buf : List Nat) (pf : PuzFile)
    (rest : List Nat) (h : parse_all buf = some (pf, rest)) :
    pf.puzzle.length = pf.width * pf.height ∧
    pf.state.length = pf.width * pf.height ∧
    pf.clues.length = pf.num_clues := by
  simp only [parse_all, obind_eq_some] at h
  obtain ⟨pre, hpre, cks, hcks, magic, hmagic, cib, hcib, ml1, hml1,
    ml2, hml2, mh1, hmh1, mh2, hmh2, ver, hver, res1, hres1, scks, hscks,
    res2, hres2, w, hw, hgt, hhgt, ncl, hncl, ubm, hubm, scr, hscr,
    puz, hpuz, st, hst, title, htitle, author, hauthor, copyr, hcopyr,
    cl, hcl, notes, hnotes, hfin⟩ := h
  rw [Option.some_inj, Prod.mk.injEq] at hfin
  obtain ⟨hpf, hrest⟩ := hfin
  subst hpf
  refine ⟨?_, ?_, ?_⟩
  · exact (pTakeUtf8_some hpuz).1
  · exact (pTakeUtf8_some hst).1
  · exact pCount_length hcl

/-- Witness for C3 at the concrete buffer bufC8, which decodes. -/
theorem c3_decoded_lengths_witness :
    parse_all bufC8 = some (pfC8, []) ∧
    (pfC8.puzzle.length = pfC8.width * pfC8.height ∧
     pfC8.state.length = pfC8.width * pfC8.height ∧
     pfC8.clues.length = pfC8.num_clues) :=
  ⟨rfl, c3_decoded_lengths bufC8 pfC8 [] rfl⟩

/-- C8, counterexample: the grid blocks are decoded with str::from_utf8,
which is full UTF-8, not 7-bit-clean text: the buffer bufC8 decodes
successfully although its puzzle block holds the bytes 195, 169, which
are not 7-bit-clean.  Under the claim this buffer would have to be
rejected. -/
theorem c8_counterexample :
    parse_all bufC8 = some (pfC8, []) ∧
    pfC8.puzzle = [195, 169] ∧
    (pfC8.puzzle.all fun b => b ≤ 127) = false := by
  refine ⟨rfl, rfl, rfl⟩

/-- C8 amended: decode rejects puzzle and state grid blocks that are not
valid as text, where the text decoding is UTF-8 (str::from_utf8), not a
7-bit-clean one: the two fixed-length slices of size width * height must
be valid UTF-8, and a buffer whose grid bytes are not valid UTF-8 fails
rather than succeeding. -/
theorem c8_grid_blocks_utf8 (buf : List Nat) (pf : PuzFile)
    (rest : List Nat) (h : parse_all buf = some (pf, rest)) :
    (utf8Decode pf.puzzle).isSome = true ∧
    (utf8Decode pf.state).isSome = true := by
  simp only [parse_all, obind_eq_some] at h
  obtain ⟨pre, hpre, cks, hcks, magic, hmagic, cib, hcib, ml1, hml1,
    ml2, hml2, mh1, hmh1, mh2, hmh2, ver, hver, res1, hres1, scks, hscks,
    res2, hres2, w, hw, hgt, hhgt, ncl, hncl, ubm, hubm, scr, hscr,
    puz, hpuz, st, hst, title, htitle, author, hauthor, copyr, hcopyr,
    cl, hcl, notes, hnotes, hfin⟩ := h
  rw [Option.some_inj, Prod.mk.injEq] at hfin
  obtain ⟨hpf, hrest⟩ := hfin
  subst hpf
  exact ⟨(pTakeUtf8_some hpuz).2, (pTakeUtf8_some hst).2⟩

/-- Witness for the amended C8 at the concrete buffer bufC8. -/
theorem c8_grid_blocks_utf8_witness :
    parse_all bufC8 = some (pfC8, []) ∧
    ((utf8Decode pfC8.puzzle).isSome = true ∧
     (utf8Decode pfC8.state).isSome = true) :=
  ⟨rfl, c8_grid_blocks_utf8 bufC8 pfC8 [] rfl⟩

theorem if_bool_true_iff {P : Prop} [Decidable P] :
    (if P then true else false) = true ↔ P := by
  by_cases h : P <;> simp [h]

/-- C2: a cell starts an across entry iff it is non-block, its left
neighbor is off-grid or a block, and its right neighbor exists and is
non-block; symmetrically for down entries; in particular in a 1 by 1 grid
no cell starts an across or a down entry.  Out-of-range reads hit
blankCell, whose truth is none, exactly matching the off-grid clauses. -/
theorem c2_entry_start (g : Game) (x y : Nat) :
    (g.has_clue_across x y = true ↔
      ((g.get x y).truth.isSome = true ∧
       (x = 0 ∨ (g.get (x - 1) y).truth = none) ∧
       x + 1 < g.width ∧ (g.get (x + 1) y).truth.isSome = true)) ∧
    (g.has_clue_down x y = true ↔
      ((g.get x y).truth.isSome = true ∧
       (y = 0 ∨ (g.get x (y - 1)).truth = none) ∧
       y + 1 < g.height ∧ (g.get x (y + 1)).truth.isSome = true)) ∧
    (g.width = 1 → g.height = 1 →
      g.has_clue_across x y = false ∧ g.has_clue_down x y = false) := by
  have hacross : g.has_clue_across x y = true ↔
      ((g.get x y).truth.isSome = true ∧
       (x = 0 ∨ (g.get (x - 1) y).truth = none) ∧
       x + 1 < g.width ∧ (g.get (x + 1) y).truth.isSome = true) := by
    unfold Game.has_clue_across
    rcases h0 : (g.get x y).truth with _ | t
    · simp [h0]
    · simp only [h0, Option.isNone_some, Bool.false_eq_true, if_false,
        Option.isSome_some, true_and]
      rw [if_bool_true_iff, Bool.and_eq_true, Bool.and_eq_true]
      simp only [Bool.or_eq_true, beq_iff_eq, Option.isNone_iff_eq_none,
        decide_eq_true_eq]
      constructor
      · rintro ⟨⟨ha, hb⟩, hc⟩
        exact ⟨ha, by omega, hc⟩
      · rintro ⟨ha, hb, hc⟩
        exact ⟨⟨ha, by omega⟩, hc⟩
  have hdown : g.has_clue_down x y = true ↔
      ((g.get x y).truth.isSome = true ∧
       (y = 0 ∨ (g.get x (y - 1)).truth = none) ∧
       y + 1 < g.height ∧ (g.get x (y + 1)).truth.isSome = true) := by
    unfold Game.has_clue_down
    rcases h0 : (g.get x y).truth with _ | t
    · simp [h0]
    · simp only [h0, Option.isNone_some, Bool.false_eq_true, if_false,
        Option.isSome_some, true_and]
      rw [if_bool_true_iff, Bool.and_eq_true, Bool.and_eq_true]
      simp only [Bool.or_eq_true, beq_iff_eq, Option.isNone_iff_eq_none,
        decide_eq_true_eq]
      constructor
      · rintro ⟨⟨ha, hb⟩, hc⟩
        exact ⟨ha, by omega, hc⟩
      · rintro ⟨ha, hb, hc⟩
        exact ⟨⟨ha, by omega⟩, hc⟩
  refine ⟨hacross, hdown, ?_⟩
  intro hw hh
  constructor
  · rcases hval : g.has_clue_across x y with _ | _
    · rfl
    · exfalso
      have := hacross.mp hval
      omega
  · rcases hval : g.has_clue_down x y with _ | _
    · rfl
    · exfalso
      have := hdown.mp hval
      omega

/-- Witness for C2 at a concrete 1 by 1 grid with one non-block cell. -/
theorem c2_entry_start_witness :
    (mkGame 1 1 ['A']).has_clue_across 0 0 = false ∧
    (mkGame 1 1 ['A']).has_clue_down 0 0 = false :=
  (c2_entry_start (mkGame 1 1 ['A']) 0 0).2.2 rfl rfl

theorem edit_left_eq (g : Game) (x y : Nat) :
    g.edit_left x y
      = if x = 0 ∨ (g.get (x - 1) y).truth = none then x else x - 1 := by
  unfold Game.edit_left
  by_cases h0 : x = 0
  · simp [h0]
  · rcases ht : (g.get (x - 1) y).truth with _ | t <;> simp [h0, ht]

theorem edit_right_eq (g : Game) (x y : Nat) :
    g.edit_right x y
      = if x + 1 = g.width ∨ (g.get (x + 1) y).truth = none then x
        else x + 1 := by
  unfold Game.edit_right
  by_cases h0 : x + 1 = g.width
  · simp [h0]
  · rcases ht : (g.get (x + 1) y).truth with _ | t <;> simp [h0, ht]

theorem edit_up_eq (g : Game) (x y : Nat) :
    g.edit_up x y
      = if y = 0 ∨ (g.get x (y - 1)).truth = none then y else y - 1 := by
  unfold Game.edit_up
  by_cases h0 : y = 0
  · simp [h0]
  · rcases ht : (g.get x (y - 1)).truth with _ | t <;> simp [h0, ht]

theorem edit_down_eq (g : Game) (x y : Nat) :
    g.edit_down x y
      = if y + 1 = g.height ∨ (g.get x (y + 1)).truth = none then y
        else y + 1 := by
  unfold Game.edit_down
  by_cases h0 : y + 1 = g.height
  · simp [h0]
  · rcases ht : (g.get x (y + 1)).truth with _ | t <;> simp [h0, ht]

/-- C6: in Select mode every directional key moves the cursor one cell
with wraparound at all four edges, blocks included; in the edit modes a
directional key that would cross the boundary or land on a block leaves
the cursor unchanged and otherwise moves it one cell. -/
theorem c6_cursor_movement (g : Game) :
    (g.mode = .Select → selectMoveSpec g) ∧
    (g.mode = .EditAcross ∨ g.mode = .EditDown → editMoveSpec g) := by
  constructor
  · intro hm
    unfold selectMoveSpec
    simp [stepKey, hm, stepKeySelect, Game.select_move, Game.left,
      Game.right, Game.up, Game.down]
  · intro hm
    unfold editMoveSpec
    rcases hm with hm | hm <;>
      simp [stepKey, hm, stepKeyEdit, Game.edit_move, edit_left_eq,
        edit_right_eq, edit_up_eq, edit_down_eq]

/-- Witness for C6 at a concrete Select-mode game and a concrete
EditAcross-mode game over a 2 by 2 grid. -/
theorem c6_cursor_movement_witness :
    selectMoveSpec (mkGame 2 2 ['A', 'B', 'C', '.']) ∧
    editMoveSpec { mkGame 2 2 ['A', 'B', 'C', '.'] with
                     mode := .EditAcross } :=
  ⟨(c6_cursor_movement (mkGame 2 2 ['A', 'B', 'C', '.'])).1 rfl,
   (c6_cursor_movement { mkGame 2 2 ['A', 'B', 'C', '.'] with
                           mode := .EditAcross }).2 (Or.inl rfl)⟩

/-! Grid access lemmas. -/

theorem setCell_grid (g : Game) (x y : Nat) (c : Cell) :
    (g.setCell x y c).grid = g.grid.set (y * g.width + x) c := rfl

theorem setCell_width (g : Game) (x y : Nat) (c : Cell) :
    (g.setCell x y c).width = g.width := rfl

theorem setCell_height (g : Game) (x y : Nat) (c : Cell) :
    (g.setCell x y c).height = g.height := rfl

theorem setCell_get? (g : Game) (x y : Nat) (c : Cell) (i : Nat) :
    (g.setCell x y c).grid[i]?
      = if y * g.width + x = i ∧ y * g.width + x < g.grid.length
        then some c else g.grid[i]? := by
  rw [setCell_grid, List.getElem?_set]
  by_cases hij : y * g.width + x = i
  · subst hij
    by_cases hlen : y * g.width + x < g.grid.length
    · simp [hlen]
    · simp [hlen, List.getElem?_eq_none (show g.grid.length ≤ y * g.width + x by omega)]
  · simp [hij]

theorem game_get_eq (g : Game) (x y : Nat) :
    g.get x y = (g.grid[y * g.width + x]?).getD blankCell := by
  simp [Game.get]

theorem truth_getD (o : Option Cell) :
    (o.getD blankCell).truth = (o.map Cell.truth).getD none := by
  cases o <;> simp [blankCell]

theorem guess_getD (o : Option Cell) :
    (o.getD blankCell).guess = (o.map Cell.guess).getD none := by
  cases o <;> simp [blankCell]

theorem setCell_get_truth (g : Game) (x y a b : Nat) (c : Cell)
    (hc : c.truth = (g.get x y).truth) :
    ((g.setCell x y c).get a b).truth = (g.get a b).truth := by
  rw [game_get_eq, game_get_eq, setCell_width, truth_getD, truth_getD,
    setCell_get?]
  by_cases hij : y * g.width + x = b * g.width + a
      ∧ y * g.width + x < g.grid.length
  · rw [if_pos hij]
    obtain ⟨hidx, hlen⟩ := hij
    rw [← hidx]
    rcases hv : g.grid[y * g.width + x]? with _ | v
    · rw [List.getElem?_eq_none_iff] at hv
      omega
    · have hxy : (g.get x y).truth = v.truth := by
        rw [game_get_eq, hv]
        rfl
      simp [hc, hxy]
  · rw [if_neg hij]

theorem edit_next_grid (g : Game) : g.edit_next.grid = g.grid := by
  unfold Game.edit_next
  cases hm : g.mode <;> simp [Game.edit_move]

theorem edit_next_width (g : Game) : g.edit_next.width = g.width := by
  unfold Game.edit_next
  cases hm : g.mode <;> simp [Game.edit_move]

theorem edit_next_eq_of_across (g : Game) (hm : g.mode = .EditAcross) :
    g.edit_next = g.edit_move .Right := by
  unfold Game.edit_next
  rw [hm]

theorem edit_next_eq_of_down (g : Game) (hm : g.mode = .EditDown) :
    g.edit_next = g.edit_move .Down := by
  unfold Game.edit_next
  rw [hm]

theorem inputStore_mode (g : Game) (c : Char) :
    (inputStore g c).mode = g.mode := rfl

theorem input_cursor_across (g : Game) (c : Char)
    (hm : g.mode = .EditAcross) :
    (g.input c).cursor_x
        = (if g.cursor_x + 1 = g.width
              ∨ (g.get (g.cursor_x + 1) g.cursor_y).truth = none
           then g.cursor_x else g.cursor_x + 1)
      ∧ (g.input c).cursor_y = g.cursor_y := by
  have hm2 : (inputStore g c).mode = .EditAcross := by
    rw [inputStore_mode, hm]
  rw [show g.input c = (inputStore g c).edit_next from rfl,
    edit_next_eq_of_across _ hm2]
  constructor
  · show (inputStore g c).edit_right g.cursor_x g.cursor_y = _
    rw [edit_right_eq]
    unfold inputStore
    rw [setCell_get_truth g g.cursor_x g.cursor_y (g.cursor_x + 1)
        g.cursor_y
        { g.get g.cursor_x g.cursor_y with
            guess := some (charUppercaseFirst c) } rfl,
      setCell_width]
  · rfl

theorem input_cursor_down (g : Game) (c : Char)
    (hm : g.mode = .EditDown) :
    (g.input c).cursor_y
        = (if g.cursor_y + 1 = g.height
              ∨ (g.get g.cursor_x (g.cursor_y + 1)).truth = none
           then g.cursor_y else g.cursor_y + 1)
      ∧ (g.input c).cursor_x = g.cursor_x := by
  have hm2 : (inputStore g c).mode = .EditDown := by
    rw [inputStore_mode, hm]
  rw [show g.input c = (inputStore g c).edit_next from rfl,
    edit_next_eq_of_down _ hm2]
  constructor
  · show (inputStore g c).edit_down g.cursor_x g.cursor_y = _
    rw [edit_down_eq]
    unfold inputStore
    rw [setCell_get_truth g g.cursor_x g.cursor_y g.cursor_x
        (g.cursor_y + 1)
        { g.get g.cursor_x g.cursor_y with
            guess := some (charUppercaseFirst c) } rfl,
      setCell_height]
  · rfl

/-- C7: an accepted character key in edit mode stores the uppercased char
as the guess of the cell under the cursor, changes no other guess, and
advances the cursor one step in the edit direction with the non-wrapping,
block-stopping rule. -/
theorem c7_input_stores_uppercase (g : Game) (c : Char)
    (hmode : g.mode = .EditAcross ∨ g.mode = .EditDown)
    (halnum : charIsAlphanumeric c = true)
    (hcur : g.cursor_y * g.width + g.cursor_x < g.grid.length) :
    inputSpec g c := by
  have hnl : ¬ c = '\n' := by
    intro h
    subst h
    exact absurd halnum (by decide)
  have hsp : ¬ c = ' ' := by
    intro h
    subst h
    exact absurd halnum (by decide)
  have hstep : stepKey g (Key.Char c) = (g.input c, true) := by
    rcases hmode with hm | hm <;>
      simp [stepKey, hm, stepKeyEdit, hnl, hsp, halnum]
  have hgrid : (g.input c).grid = (inputStore g c).grid := by
    rw [show g.input c = (inputStore g c).edit_next from rfl,
      edit_next_grid]
  refine ⟨?_, ?_, ?_, ?_⟩
  · rw [hstep]
    show ((g.input c).grid[g.cursor_y * g.width + g.cursor_x]?).map
        Cell.guess = _
    rw [hgrid]
    unfold inputStore
    rw [setCell_get?, if_pos ⟨rfl, hcur⟩]
    rfl
  · intro i hi
    rw [hstep]
    show ((g.input c).grid[i]?).map Cell.guess = _
    rw [hgrid]
    unfold inputStore
    rw [setCell_get?, if_neg (fun hcon => hi hcon.1.symm)]
  · intro hm
    rw [hstep]
    exact input_cursor_across g c hm
  · intro hm
    rw [hstep]
    exact input_cursor_down g c hm

/-- Witness for C7: typing the char a in EditAcross mode on a concrete
2 by 1 grid. -/
theorem c7_input_stores_uppercase_witness :
    inputSpec { mkGame 2 1 ['A', 'B'] with mode := .EditAcross } 'a' :=
  c7_input_stores_uppercase
    { mkGame 2 1 ['A', 'B'] with mode := .EditAcross } 'a'
    (Or.inl rfl) (by decide) (by decide)

theorem get_status_congr (g1 g2 : Game) (h : g1.grid = g2.grid) :
    g1.get_status = g2.get_status := by
  unfold Game.get_status
  rw [h]

theorem checkGameOver_grid (g : Game) : (checkGameOver g).grid = g.grid := by
  unfold checkGameOver
  split
  · rfl
  · split <;> rfl

/-- C5: whenever a polling iteration completes and the resulting grid is
fully correct (no errors and guesses equal to cells), the mode is
GameOver; and GameOver is terminal: any key event in GameOver leaves the
whole game state unchanged and ends the session. -/
theorem c5_game_over_transition (g : Game) :
    (∀ ks g1, pollCycle g ks = some g1 →
      g1.get_status.errors = 0 →
      g1.get_status.cells = g1.get_status.guesses →
      g1.mode = .GameOver) ∧
    (g.mode = .GameOver → ∀ k, stepKey g k = (g, false)) := by
  constructor
  · intro ks g1 hpoll herr hcg
    unfold pollCycle at hpoll
    rcases hpk : processKeys g ks with _ | g2
    · rw [hpk] at hpoll
      cases hpoll
    · rw [hpk, Option.some_inj] at hpoll
      subst hpoll
      have hst : g2.get_status = (checkGameOver g2).get_status :=
        get_status_congr _ _ (checkGameOver_grid g2).symm
      have hgo : g2.is_game_over = true := by
        unfold Game.is_game_over
        rw [hst]
        simp [herr, hcg]
      unfold checkGameOver
      split
      · assumption
      · split
        · rfl
        · exact absurd hgo (by assumption)
  · intro hm k
    simp [stepKey, hm]

/-- Witness for C5: a polling iteration on a concrete solved game ends in
GameOver, and a key event in GameOver returns the state unchanged with
the session-ending flag. -/
theorem c5_game_over_transition_witness :
    (checkGameOver gSolved).mode = .GameOver ∧
    stepKey { gSolved with mode := .GameOver } (Key.Char 'x')
      = ({ gSolved with mode := .GameOver }, false) :=
  ⟨(c5_game_over_transition gSolved).1 [] (checkGameOver gSolved) rfl
      (by decide) (by decide),
   (c5_game_over_transition { gSolved with mode := .GameOver }).2 rfl
      (Key.Char 'x')⟩

/-! Congruence lemmas: the entry-start flags read only the width, height
and truth fields, which the numbering pass never modifies. -/

theorem get_truth_congr (g1 g2 : Game) (hw : g1.width = g2.width)
    (ht : ∀ i : Nat, (g1.grid[i]?).map Cell.truth = (g2.grid[i]?).map Cell.truth)
    (x y : Nat) : (g1.get x y).truth = (g2.get x y).truth := by
  rw [game_get_eq, game_get_eq, truth_getD, truth_getD, hw, ht]

theorem has_clue_across_congr (g1 g2 : Game) (hw : g1.width = g2.width)
    (ht : ∀ i : Nat, (g1.grid[i]?).map Cell.truth = (g2.grid[i]?).map Cell.truth)
    (x y : Nat) : g1.has_clue_across x y = g2.has_clue_across x y := by
  unfold Game.has_clue_across
  rw [get_truth_congr g1 g2 hw ht x y, get_truth_congr g1 g2 hw ht (x - 1) y,
    get_truth_congr g1 g2 hw ht (x + 1) y, hw]

theorem has_clue_down_congr (g1 g2 : Game) (hw : g1.width = g2.width)
    (hh : g1.height = g2.height)
    (ht : ∀ i : Nat, (g1.grid[i]?).map Cell.truth = (g2.grid[i]?).map Cell.truth)
    (x y : Nat) : g1.has_clue_down x y = g2.has_clue_down x y := by
  unfold Game.has_clue_down
  rw [get_truth_congr g1 g2 hw ht x y, get_truth_congr g1 g2 hw ht x (y - 1),
    get_truth_congr g1 g2 hw ht x (y + 1), hh]

theorem startB_congr (g1 g2 : Game) (hw : g1.width = g2.width)
    (hh : g1.height = g2.height)
    (ht : ∀ i : Nat, (g1.grid[i]?).map Cell.truth = (g2.grid[i]?).map Cell.truth)
    (q : Nat × Nat) : startB g1 q = startB g2 q := by
  unfold startB
  rw [has_clue_across_congr g1 g2 hw ht, has_clue_down_congr g1 g2 hw hh ht]

theorem consumeCount_congr (g1 g2 : Game) (hw : g1.width = g2.width)
    (hh : g1.height = g2.height)
    (ht : ∀ i : Nat, (g1.grid[i]?).map Cell.truth = (g2.grid[i]?).map Cell.truth)
    (q : Nat × Nat) : consumeCount g1 q = consumeCount g2 q := by
  unfold consumeCount
  rw [has_clue_across_congr g1 g2 hw ht, has_clue_down_congr g1 g2 hw hh ht]

theorem countStarts_congr (g1 g2 : Game) (hw : g1.width = g2.width)
    (hh : g1.height = g2.height)
    (ht : ∀ i : Nat, (g1.grid[i]?).map Cell.truth = (g2.grid[i]?).map Cell.truth)
    (ps : List (Nat × Nat)) : countStarts g1 ps = countStarts g2 ps := by
  unfold countStarts
  exact List.countP_congr fun q _ => by
    rw [startB_congr g1 g2 hw hh ht q]

theorem countConsumed_congr (g1 g2 : Game) (hw : g1.width = g2.width)
    (hh : g1.height = g2.height)
    (ht : ∀ i : Nat, (g1.grid[i]?).map Cell.truth = (g2.grid[i]?).map Cell.truth)
    (ps : List (Nat × Nat)) : countConsumed g1 ps = countConsumed g2 ps := by
  unfold countConsumed
  rw [List.map_congr_left fun q _ => consumeCount_congr g1 g2 hw hh ht q]

theorem processCell_eq_some (clues : List (List Char)) (g : Game)
    (x y n idx : Nat) (out : Game × Nat × Nat)
    (h : processCell clues g x y n idx = some out) :
    out = (g.setCell x y (finalCell g clues n idx (x, y)),
           (if startB g (x, y) then n + 1 else n),
           idx + consumeCount g (x, y)) := by
  unfold processCell at h
  unfold finalCell startB consumeCount
  rcases hA : g.has_clue_across x y <;>
    rcases hD : g.has_clue_down x y <;>
    simp only [hA, hD, Bool.false_or, Bool.or_false, Bool.true_or,
      Bool.or_true, if_true, if_false, Bool.false_eq_true, ite_true,
      ite_false] at h ⊢
  · rw [Option.some_inj] at h
    subst h
    simp
  · rcases hs : clues[idx]? with _ | s
    · simp only [hs] at h
      cases h
    · simp only [hs] at h
      rw [Option.some_inj] at h
      subst h
      simp [hs]
  · rcases hs : clues[idx]? with _ | s
    · simp only [hs] at h
      cases h
    · simp only [hs] at h
      rw [Option.some_inj] at h
      subst h
      simp [hs]
  · rcases hs : clues[idx]? with _ | s
    · simp only [hs] at h
      cases h
    · simp only [hs] at h
      rcases hs2 : clues[idx + 1]? with _ | s2
      · simp only [hs2] at h
        cases h
      · simp only [hs2] at h
        rw [Option.some_inj] at h
        subst h
        simp [hs, hs2]

theorem getElem?_some_lt {α : Type} {l : List α} {i : Nat} {a : α}
    (h : l[i]? = some a) : i < l.length := by
  by_contra hc
  rw [List.getElem?_eq_none (by omega)] at h
  cases h

theorem processCell_isSome (clues : List (List Char)) (g : Game)
    (x y n idx : Nat) :
    (processCell clues g x y n idx).isSome = true ↔
      (consumeCount g (x, y) = 0
        ∨ idx + consumeCount g (x, y) ≤ clues.length) := by
  unfold processCell consumeCount
  rcases hA : g.has_clue_across x y <;> rcases hD : g.has_clue_down x y <;>
    simp only [hA, hD, if_true, if_false, ite_true, ite_false,
      Bool.false_eq_true]
  · simp
  · rcases hs : clues[idx]? with _ | s
    · have hge := List.getElem?_eq_none_iff.mp hs
      simp only [hs]
      simp
      omega
    · have hlt := getElem?_some_lt hs
      simp only [hs]
      simp
      omega
  · rcases hs : clues[idx]? with _ | s
    · have hge := List.getElem?_eq_none_iff.mp hs
      simp only [hs]
      simp
      omega
    · have hlt := getElem?_some_lt hs
      simp only [hs]
      simp
      omega
  · rcases hs : clues[idx]? with _ | s
    · have hge := List.getElem?_eq_none_iff.mp hs
      simp only [hs]
      simp
      omega
    · have hlt := getElem?_some_lt hs
      simp only [hs]
      rcases hs2 : clues[idx + 1]? with _ | s2
      · have hge2 := List.getElem?_eq_none_iff.mp hs2
        simp only [hs2]
        simp
        omega
      · have hlt2 := getElem?_some_lt hs2
        simp only [hs2]
        simp
        omega

theorem setCell_truthMap (g : Game) (x y : Nat) (c : Cell)
    (hc : c.truth = (g.get x y).truth) (i : Nat) :
    ((g.setCell x y c).grid[i]?).map Cell.truth
      = (g.grid[i]?).map Cell.truth := by
  rw [setCell_get?]
  by_cases hij : y * g.width + x = i ∧ y * g.width + x < g.grid.length
  · rw [if_pos hij]
    obtain ⟨hidx, hlen⟩ := hij
    subst hidx
    rcases hv : g.grid[y * g.width + x]? with _ | v
    · rw [List.getElem?_eq_none_iff] at hv
      omega
    · have hxy : (g.get x y).truth = v.truth := by
        rw [game_get_eq, hv]
        rfl
      simp [hc, hxy]
  · rw [if_neg hij]

theorem setCell_guessMap (g : Game) (x y : Nat) (c : Cell)
    (hc : c.guess = (g.get x y).guess) (i : Nat) :
    ((g.setCell x y c).grid[i]?).map Cell.guess
      = (g.grid[i]?).map Cell.guess := by
  rw [setCell_get?]
  by_cases hij : y * g.width + x = i ∧ y * g.width + x < g.grid.length
  · rw [if_pos hij]
    obtain ⟨hidx, hlen⟩ := hij
    subst hidx
    rcases hv : g.grid[y * g.width + x]? with _ | v
    · rw [List.getElem?_eq_none_iff] at hv
      omega
    · have hxy : (g.get x y).guess = v.guess := by
        rw [game_get_eq, hv]
        rfl
      simp [hc, hxy]
  · rw [if_neg hij]

/-- Master lemma for the numbering pass: the frame fields, the truth and
guess content, and the final counter and clue index, expressed against
the entry state. -/
theorem numberCells_spec (clues : List (List Char)) :
    ∀ (ps : List (Nat × Nat)) (g : Game) (n idx : Nat)
      (out : Game × Nat × Nat),
      numberCells clues ps g n idx = some out →
      out.1.width = g.width ∧
      out.1.height = g.height ∧
      out.1.mode = g.mode ∧
      out.1.cursor_x = g.cursor_x ∧
      out.1.cursor_y = g.cursor_y ∧
      out.1.grid.length = g.grid.length ∧
      (∀ i : Nat, (out.1.grid[i]?).map Cell.truth
        = (g.grid[i]?).map Cell.truth) ∧
      (∀ i : Nat, (out.1.grid[i]?).map Cell.guess
        = (g.grid[i]?).map Cell.guess) ∧
      out.2.1 = n + countStarts g ps ∧
      out.2.2 = idx + countConsumed g ps := by
  intro ps
  induction ps with
  | nil =>
    intro g n idx out h
    unfold numberCells at h
    rw [Option.some_inj] at h
    subst h
    simp [countStarts, countConsumed]
  | cons q ps ih =>
    intro g n idx out h
    obtain ⟨qx, qy⟩ := q
    unfold numberCells at h
    rcases hp : processCell clues g qx qy n idx with _ | trip
    · rw [hp] at h
      cases h
    · rw [hp] at h
      obtain ⟨g1, n1, idx1⟩ := trip
      have hstep := processCell_eq_some clues g qx qy n idx _ hp
      rw [Prod.mk.injEq, Prod.mk.injEq] at hstep
      obtain ⟨hg1, hn1, hidx1⟩ := hstep
      have ihres := ih g1 n1 idx1 out h
      obtain ⟨ihw, ihh, ihm, ihcx, ihcy, ihlen, ihtruth, ihguess, ihn,
        ihidx⟩ := ihres
      have hw1 : g1.width = g.width := by
        rw [hg1, setCell_width]
      have hh1 : g1.height = g.height := by
        rw [hg1, setCell_height]
      have ht1 : ∀ i : Nat, (g1.grid[i]?).map Cell.truth
          = (g.grid[i]?).map Cell.truth := by
        intro i
        rw [hg1]
        exact setCell_truthMap g qx qy
          (finalCell g clues n idx (qx, qy)) rfl i
      have hu1 : ∀ i : Nat, (g1.grid[i]?).map Cell.guess
          = (g.grid[i]?).map Cell.guess := by
        intro i
        rw [hg1]
        exact setCell_guessMap g qx qy
          (finalCell g clues n idx (qx, qy)) rfl i
      have hlen1 : g1.grid.length = g.grid.length := by
        rw [hg1, setCell_grid, List.length_set]
      refine ⟨?_, ?_, ?_, ?_, ?_, ?_, ?_, ?_, ?_, ?_⟩
      · rw [ihw, hw1]
      · rw [ihh, hh1]
      · rw [ihm, hg1]
        rfl
      · rw [ihcx, hg1]
        rfl
      · rw [ihcy, hg1]
        rfl
      · rw [ihlen, hlen1]
      · intro i
        rw [ihtruth i, ht1 i]
      · intro i
        rw [ihguess i, hu1 i]
      · rw [ihn, countStarts_congr g1 g hw1 hh1 ht1 ps, hn1]
        unfold countStarts
        rw [List.countP_cons]
        rcases hS : startB g (qx, qy) <;> simp [hS]
        omega
      · rw [ihidx, countConsumed_congr g1 g hw1 hh1 ht1 ps, hidx1]
        unfold countConsumed
        rw [List.map_cons, List.sum_cons]
        omega

/-- Positions whose flat index is never written stay unchanged. -/
theorem numberCells_untouched (clues : List (List Char)) :
    ∀ (ps : List (Nat × Nat)) (g : Game) (n idx : Nat)
      (out : Game × Nat × Nat),
      numberCells clues ps g n idx = some out →
      ∀ i : Nat, (∀ q ∈ ps, q.2 * g.width + q.1 ≠ i) →
      out.1.grid[i]? = g.grid[i]? := by
  intro ps
  induction ps with
  | nil =>
    intro g n idx out h i hfresh
    unfold numberCells at h
    rw [Option.some_inj] at h
    subst h
    rfl
  | cons q ps ih =>
    intro g n idx out h i hfresh
    obtain ⟨qx, qy⟩ := q
    unfold numberCells at h
    rcases hp : processCell clues g qx qy n idx with _ | trip
    · rw [hp] at h
      cases h
    · rw [hp] at h
      obtain ⟨g1, n1, idx1⟩ := trip
      have hstep := processCell_eq_some clues g qx qy n idx _ hp
      rw [Prod.mk.injEq, Prod.mk.injEq] at hstep
      obtain ⟨hg1, hn1, hidx1⟩ := hstep
      have hw1 : g1.width = g.width := by
        rw [hg1, setCell_width]
      have hskip : g1.grid[i]? = g.grid[i]? := by
        rw [hg1, setCell_get?, if_neg]
        intro hcon
        exact hfresh (qx, qy) (List.mem_cons_self _ _) hcon.1
      rw [← hskip]
      refine ih g1 n1 idx1 out h i ?_
      intro q' hq'
      rw [hw1]
      exact hfresh q' (List.mem_cons_of_mem _ hq')

/-- Value of the numbering pass at a visited position whose flat index is
visited exactly once: the pass reaches it with counter n plus the starts
before it and index idx plus the consumption before it. -/
theorem numberCells_processed (clues : List (List Char)) :
    ∀ (ps1 : List (Nat × Nat)) (q : Nat × Nat) (ps2 : List (Nat × Nat))
      (g : Game) (n idx : Nat) (out : Game × Nat × Nat),
      numberCells clues (ps1 ++ q :: ps2) g n idx = some out →
      (∀ q' ∈ ps1, q'.2 * g.width + q'.1 ≠ q.2 * g.width + q.1) →
      (∀ q' ∈ ps2, q'.2 * g.width + q'.1 ≠ q.2 * g.width + q.1) →
      q.2 * g.width + q.1 < g.grid.length →
      out.1.grid[q.2 * g.width + q.1]?
        = some (finalCell g clues (n + countStarts g ps1)
            (idx + countConsumed g ps1) q) := by
  intro ps1
  induction ps1 with
  | nil =>
    intro q ps2 g n idx out h hf1 hf2 hlen
    obtain ⟨qx, qy⟩ := q
    rw [List.nil_append] at h
    unfold numberCells at h
    rcases hp : processCell clues g qx qy n idx with _ | trip
    · rw [hp] at h
      cases h
    · rw [hp] at h
      obtain ⟨g1, n1, idx1⟩ := trip
      have hstep := processCell_eq_some clues g qx qy n idx _ hp
      rw [Prod.mk.injEq, Prod.mk.injEq] at hstep
      obtain ⟨hg1, hn1, hidx1⟩ := hstep
      have hw1 : g1.width = g.width := by
        rw [hg1, setCell_width]
      have hval : g1.grid[qy * g.width + qx]?
          = some (finalCell g clues n idx (qx, qy)) := by
        rw [hg1, setCell_get?, if_pos ⟨rfl, hlen⟩]
      have huntouched := numberCells_untouched clues ps2 g1 n1 idx1 out h
        (qy * g.width + qx) ?_
      · rw [huntouched, hval]
        simp [countStarts, countConsumed]
      · intro q' hq'
        rw [hw1]
        exact hf2 q' hq'
  | cons p0 ps1 ih =>
    intro q ps2 g n idx out h hf1 hf2 hlen
    obtain ⟨px, py⟩ := p0
    rw [List.cons_append] at h
    unfold numberCells at h
    rcases hp : processCell clues g px py n idx with _ | trip
    · rw [hp] at h
      cases h
    · rw [hp] at h
      obtain ⟨g1, n1, idx1⟩ := trip
      have hstep := processCell_eq_some clues g px py n idx _ hp
      rw [Prod.mk.injEq, Prod.mk.injEq] at hstep
      obtain ⟨hg1, hn1, hidx1⟩ := hstep
      have hw1 : g1.width = g.width := by
        rw [hg1, setCell_width]
      have hh1 : g1.height = g.height := by
        rw [hg1, setCell_height]
      have ht1 : ∀ i : Nat, (g1.grid[i]?).map Cell.truth
          = (g.grid[i]?).map Cell.truth := by
        intro i
        rw [hg1]
        exact setCell_truthMap g px py
          (finalCell g clues n idx (px, py)) rfl i
      have hlen1 : g1.grid.length = g.grid.length := by
        rw [hg1, setCell_grid, List.length_set]
      have hpq : py * g.width + px ≠ q.2 * g.width + q.1 :=
        hf1 (px, py) (List.mem_cons_self _ _)
      have hgetq : g1.get q.1 q.2 = g.get q.1 q.2 := by
        rw [game_get_eq, game_get_eq, hw1, hg1, setCell_get?, if_neg]
        intro hcon
        exact hpq hcon.1
      have ihres := ih q ps2 g1 n1 idx1 out h ?_ ?_ ?_
      · rw [hw1] at ihres
        rw [ihres]
        have hflagA : g1.has_clue_across q.1 q.2
            = g.has_clue_across q.1 q.2 :=
          has_clue_across_congr g1 g hw1 ht1 q.1 q.2
        have hflagD : g1.has_clue_down q.1 q.2
            = g.has_clue_down q.1 q.2 :=
          has_clue_down_congr g1 g hw1 hh1 ht1 q.1 q.2
        have hcells : finalCell g1 clues (n1 + countStarts g1 ps1)
              (idx1 + countConsumed g1 ps1) q
            = finalCell g clues (n + countStarts g ((px, py) :: ps1))
              (idx + countConsumed g ((px, py) :: ps1)) q := by
          have hns : n1 + countStarts g1 ps1
              = n + countStarts g ((px, py) :: ps1) := by
            rw [countStarts_congr g1 g hw1 hh1 ht1 ps1, hn1]
            unfold countStarts
            rw [List.countP_cons]
            rcases hS : startB g (px, py) <;> simp [hS]
            omega
          have his : idx1 + countConsumed g1 ps1
              = idx + countConsumed g ((px, py) :: ps1) := by
            rw [countConsumed_congr g1 g hw1 hh1 ht1 ps1, hidx1]
            unfold countConsumed
            rw [List.map_cons, List.sum_cons]
            omega
          unfold finalCell
          rw [hns, his, hflagA, hflagD, hgetq]
        rw [hcells]
      · intro q' hq'
        rw [hw1]
        exact hf1 q' (List.mem_cons_of_mem _ hq')
      · intro q' hq'
        rw [hw1]
        exact hf2 q' hq'
      · rw [hw1, hlen1]
        exact hlen

/-- The numbering pass succeeds exactly when the clue list is long enough
for the consumption of the scanned positions. -/
theorem numberCells_isSome (clues : List (List Char)) :
    ∀ (ps : List (Nat × Nat)) (g : Game) (n idx : Nat),
      (numberCells clues ps g n idx).isSome = true ↔
        (countConsumed g ps = 0
          ∨ idx + countConsumed g ps ≤ clues.length) := by
  intro ps
  induction ps with
  | nil =>
    intro g n idx
    simp [numberCells, countConsumed]
  | cons q ps ih =>
    intro g n idx
    obtain ⟨qx, qy⟩ := q
    have hcons : countConsumed g ((qx, qy) :: ps)
        = consumeCount g (qx, qy) + countConsumed g ps := by
      unfold countConsumed
      rw [List.map_cons, List.sum_cons]
    unfold numberCells
    rcases hp : processCell clues g qx qy n idx with _ | trip
    · have hfail := processCell_isSome clues g qx qy n idx
      rw [hp] at hfail
      simp only [Option.isSome_none, Bool.false_eq_true, false_iff] at hfail
      push_neg at hfail
      obtain ⟨hcc, hlen⟩ := hfail
      rw [hcons]
      simp only [Option.isSome_none, Bool.false_eq_true, false_iff]
      push_neg
      constructor
      · omega
      · omega
    · obtain ⟨g1, n1, idx1⟩ := trip
      have hsucc := processCell_isSome clues g qx qy n idx
      rw [hp] at hsucc
      simp only [Option.isSome_some, true_iff] at hsucc
      have hstep := processCell_eq_some clues g qx qy n idx _ hp
      rw [Prod.mk.injEq, Prod.mk.injEq] at hstep
      obtain ⟨hg1, hn1, hidx1⟩ := hstep
      have hw1 : g1.width = g.width := by
        rw [hg1, setCell_width]
      have hh1 : g1.height = g.height := by
        rw [hg1, setCell_height]
      have ht1 : ∀ i : Nat, (g1.grid[i]?).map Cell.truth
          = (g.grid[i]?).map Cell.truth := by
        intro i
        rw [hg1]
        exact setCell_truthMap g qx qy
          (finalCell g clues n idx (qx, qy)) rfl i
      rw [ih g1 n1 idx1, countConsumed_congr g1 g hw1 hh1 ht1 ps, hidx1,
        hcons]
      constructor
      · intro hside
        omega
      · intro hside
        omega

theorem posIdx_mod_div (w m : Nat) : (m / w) * w + m % w = m := by
  rw [Nat.mul_comm]
  exact Nat.div_add_mod m w

/-- The row-major scan order is the list of flat indices in order. -/
theorem scanOrder_eq (w h : Nat) :
    scanOrder w h = (List.range (h * w)).map fun k => (k % w, k / w) := by
  induction h with
  | zero => simp [scanOrder]
  | succ h ih =>
    unfold scanOrder at ih ⊢
    rw [List.range_succ, List.flatMap_append, ih, Nat.succ_mul,
      List.range_add, List.map_append]
    congr 1
    have hsingle : ([h] : List Nat).flatMap
        (fun y => (List.range w).map fun x => (x, y))
        = (List.range w).map fun x => (x, h) := by
      simp
    rw [hsingle, List.map_map]
    apply List.map_congr_left
    intro x hx
    rw [List.mem_range] at hx
    have hw : 0 < w := by omega
    simp only [Function.comp]
    have hmod : (h * w + x) % w = x := by
      rw [Nat.add_comm, Nat.add_mul_mod_self_right, Nat.mod_eq_of_lt hx]
    have hdiv : (h * w + x) / w = h := by
      rw [Nat.add_comm, Nat.add_mul_div_right x h hw,
        Nat.div_eq_of_lt hx, Nat.zero_add]
    rw [hmod, hdiv]

theorem scan_index_lt (w h x y : Nat) (hx : x < w) (hy : y < h) :
    y * w + x < h * w := by
  have h1 : y * w + x < (y + 1) * w := by
    rw [Nat.succ_mul]
    omega
  have h2 : (y + 1) * w ≤ h * w := Nat.mul_le_mul_right w (by omega)
  omega

theorem scan_pair_eq (w x y : Nat) (hx : x < w) :
    ((y * w + x) % w, (y * w + x) / w) = (x, y) := by
  have hw : 0 < w := by omega
  have hmod : (y * w + x) % w = x := by
    rw [Nat.add_comm, Nat.add_mul_mod_self_right, Nat.mod_eq_of_lt hx]
  have hdiv : (y * w + x) / w = y := by
    rw [Nat.add_comm, Nat.add_mul_div_right x y hw,
      Nat.div_eq_of_lt hx, Nat.zero_add]
  rw [hmod, hdiv]

/-- Splitting the scan order at an in-bounds position. -/
theorem scanOrder_split (w h x y : Nat) (hx : x < w) (hy : y < h) :
    scanOrder w h
      = scanBefore w (y * w + x)
        ++ (x, y) :: ((List.range (h * w - (y * w + x) - 1)).map
            fun k => ((y * w + x + 1 + k) % w, (y * w + x + 1 + k) / w)) := by
  have hj := scan_index_lt w h x y hx hy
  rw [scanOrder_eq]
  conv_lhs =>
    rw [show h * w = (y * w + x + 1) + (h * w - (y * w + x) - 1) by omega]
  rw [List.range_add, List.range_succ, List.map_append, List.map_append,
    List.map_map, List.append_assoc]
  unfold scanBefore
  congr 1
  rw [List.map_singleton, scan_pair_eq w x y hx, List.singleton_append]
  congr 1

theorem scanBefore_index_ne (w j : Nat) :
    ∀ q ∈ scanBefore w j, q.2 * w + q.1 ≠ j := by
  intro q hq
  unfold scanBefore at hq
  rw [List.mem_map] at hq
  obtain ⟨k, hk, hfk⟩ := hq
  rw [List.mem_range] at hk
  subst hfk
  simp only
  rw [posIdx_mod_div]
  omega

theorem scanTail_index_ne (w j r : Nat) :
    ∀ q ∈ (List.range r).map (fun k => ((j + 1 + k) % w, (j + 1 + k) / w)),
      q.2 * w + q.1 ≠ j := by
  intro q hq
  rw [List.mem_map] at hq
  obtain ⟨k, hk, hfk⟩ := hq
  subst hfk
  simp only
  rw [posIdx_mod_div]
  omega

theorem mkGame_grid_getElem? (w h : Nat) (p : List Char) (i : Nat) :
    (mkGame w h p).grid[i]? = (p[i]?).map mkCell := by
  show (p.map mkCell)[i]? = _
  rw [List.getElem?_map]

theorem mkGame_get_fields (w h : Nat) (p : List Char) (x y : Nat) :
    ((mkGame w h p).get x y).guess = none ∧
    ((mkGame w h p).get x y).clue_number = none ∧
    ((mkGame w h p).get x y).clue_across = none ∧
    ((mkGame w h p).get x y).clue_down = none := by
  rw [game_get_eq, mkGame_grid_getElem?]
  rcases p[y * (mkGame w h p).width + x]? with _ | ch <;>
    simp [mkCell, blankCell]

theorem mkGame_grid_length (w h : Nat) (p : List Char) :
    (mkGame w h p).grid.length = p.length := by
  show (p.map mkCell).length = p.length
  rw [List.length_map]

theorem scanBefore_split (w j1 j2 x1 y1 : Nat) (hx : x1 < w)
    (hj : y1 * w + x1 = j1) (hlt : j1 < j2) :
    scanBefore w j2
      = scanBefore w j1
        ++ (x1, y1) :: ((List.range (j2 - j1 - 1)).map
            fun k => ((j1 + 1 + k) % w, (j1 + 1 + k) / w)) := by
  subst hj
  unfold scanBefore
  conv_lhs =>
    rw [show j2 = (y1 * w + x1 + 1) + (j2 - (y1 * w + x1) - 1) by omega]
  rw [List.range_add, List.range_succ, List.map_append, List.map_append,
    List.map_map, List.append_assoc, List.map_singleton,
    scan_pair_eq w x1 y1 hx, List.singleton_append]
  congr 1

/-- Value of init at every in-bounds cell, with the counter and index the
scan carries when it reaches that cell. -/
theorem initNumbered_cell_value (w h : Nat) (puzzle : List Char)
    (clues : List (List Char)) (gout : Game)
    (hlen : puzzle.length = w * h)
    (hinit : initNumbered w h puzzle clues = some gout) :
    gout.width = w ∧
    ∀ x y : Nat, x < w → y < h →
      gout.grid[y * w + x]?
        = some (finalCell (mkGame w h puzzle) clues
            (1 + countStarts (mkGame w h puzzle) (scanBefore w (y * w + x)))
            (countConsumed (mkGame w h puzzle) (scanBefore w (y * w + x)))
            (x, y)) := by
  unfold initNumbered at hinit
  rcases hfull : initNumberedFull w h puzzle clues with _ | trip
  · rw [hfull] at hinit
    cases hinit
  · rw [hfull] at hinit
    simp only [Option.map_some', Option.some_inj] at hinit
    unfold initNumberedFull at hfull
    have hspec := numberCells_spec clues (scanOrder w h)
      (mkGame w h puzzle) 1 0 trip hfull
    constructor
    · rw [← hinit, hspec.1]
      rfl
    · intro x y hx hy
      have hsplit := scanOrder_split w h x y hx hy
      rw [hsplit] at hfull
      have hproc := numberCells_processed clues
        (scanBefore w (y * w + x)) (x, y) _ (mkGame w h puzzle) 1 0 trip
        hfull
        (fun q' hq' => scanBefore_index_ne w (y * w + x) q' hq')
        (fun q' hq' => scanTail_index_ne w (y * w + x) _ q' hq')
        (by show y * w + x < (mkGame w h puzzle).grid.length
            rw [mkGame_grid_length, hlen]
            have hin := scan_index_lt w h x y hx hy
            have hc := Nat.mul_comm w h
            omega)
      have hidx : ((x, y) : Nat × Nat).2 * (mkGame w h puzzle).width
          + ((x, y) : Nat × Nat).1 = y * w + x := rfl
      rw [hidx, Nat.zero_add] at hproc
      rw [← hinit]
      exact hproc

/-- C1: the numbering pass visits cells row-major, starts the counter at
1, numbers exactly the entry-start cells with one increment per start
cell (a doubly-starting cell gets one shared number), consumes the
across clue before the down clue, and assigns strictly increasing
numbers in scan order. -/
theorem c1_clue_numbering (w h : Nat) (puzzle : List Char)
    (clues : List (List Char)) (gout : Game)
    (hlen : puzzle.length = w * h)
    (hinit : initNumbered w h puzzle clues = some gout) :
    numberingConcl w h puzzle clues gout := by
  obtain ⟨hwidth, hval⟩ :=
    initNumbered_cell_value w h puzzle clues gout hlen hinit
  have hfields : ∀ x y : Nat, x < w → y < h →
      gout.get x y
        = finalCell (mkGame w h puzzle) clues
            (1 + countStarts (mkGame w h puzzle) (scanBefore w (y * w + x)))
            (countConsumed (mkGame w h puzzle) (scanBefore w (y * w + x)))
            (x, y) := by
    intro x y hx hy
    rw [game_get_eq, hwidth, hval x y hx hy]
    rfl
  constructor
  · intro x y hx hy
    obtain ⟨hg, hn, ha, hd⟩ := mkGame_get_fields w h puzzle x y
    have hcell := hfields x y hx hy
    refine ⟨?_, ?_, ?_⟩
    · rw [hcell]
      unfold finalCell startB
      dsimp only
      rw [hn]
    · rw [hcell]
      unfold finalCell
      dsimp only
      rw [ha]
    · rw [hcell]
      unfold finalCell
      dsimp only
      rw [hd]
  · intro x1 y1 x2 y2 n1 n2 hx1 hy1 hx2 hy2 hlt h1 h2
    rw [hfields x1 y1 hx1 hy1] at h1
    rw [hfields x2 y2 hx2 hy2] at h2
    unfold finalCell at h1 h2
    dsimp only at h1 h2
    rcases hS1 : (mkGame w h puzzle).has_clue_across x1 y1
        || (mkGame w h puzzle).has_clue_down x1 y1 with _ | _
    · rw [hS1, if_neg (by simp)] at h1
      rw [(mkGame_get_fields w h puzzle x1 y1).2.1] at h1
      cases h1
    · rw [hS1, if_pos rfl] at h1
      rcases hS2 : (mkGame w h puzzle).has_clue_across x2 y2
          || (mkGame w h puzzle).has_clue_down x2 y2 with _ | _
      · rw [hS2, if_neg (by simp)] at h2
        rw [(mkGame_get_fields w h puzzle x2 y2).2.1] at h2
        cases h2
      · rw [hS2, if_pos rfl] at h2
        rw [Option.some_inj] at h1 h2
        have hSB : startB (mkGame w h puzzle) (x1, y1) = true := by
          unfold startB
          dsimp only
          exact hS1
        have hsp := scanBefore_split w (y1 * w + x1) (y2 * w + x2)
          x1 y1 hx1 rfl hlt
        have hge : countStarts (mkGame w h puzzle)
              (scanBefore w (y1 * w + x1)) + 1
            ≤ countStarts (mkGame w h puzzle)
              (scanBefore w (y2 * w + x2)) := by
          rw [hsp]
          unfold countStarts
          rw [List.countP_append, List.countP_cons, hSB]
          simp
        omega

/-- Witness for C1 at the 3 by 3 fixture grid of the repository tests. -/
theorem c1_clue_numbering_witness :
    pz33.length = 3 * 3 ∧ numberingConcl 3 3 pz33 cl33 g33 :=
  ⟨rfl, c1_clue_numbering 3 3 pz33 cl33 g33 rfl rfl⟩

/-- C4 amended, for grids whose cell count equals width times height (on
shorter grids init panics on a grid read before the clue question even
arises): the pass consumes exactly one clue per across start plus one
per down start; it completes with every p.clues[clue_index] access in
bounds exactly when that total is at most the clue count, and on
completion the final clue index equals the total; the code itself never
compares the total with num_clues. -/
theorem c4_clue_consumption (w h : Nat) (puzzle : List Char)
    (clues : List (List Char)) (hlen : puzzle.length = w * h) :
    ((initNumberedFull w h puzzle clues).isSome = true ↔
      countConsumed (mkGame w h puzzle) (scanOrder w h) ≤ clues.length) ∧
    (∀ out, initNumberedFull w h puzzle clues = some out →
      out.2.2 = countConsumed (mkGame w h puzzle) (scanOrder w h)) := by
  constructor
  · unfold initNumberedFull
    rw [numberCells_isSome]
    constructor
    · intro hside
      rcases hside with hz | hle
      · omega
      · omega
    · intro hle
      omega
  · intro out hout
    unfold initNumberedFull at hout
    have hspec := numberCells_spec clues (scanOrder w h)
      (mkGame w h puzzle) 1 0 out hout
    obtain ⟨_, _, _, _, _, _, _, _, _, hidx⟩ := hspec
    omega

/-- Witness for the amended C4 at the 3 by 3 fixture. -/
theorem c4_clue_consumption_witness :
    pz33.length = 3 * 3 ∧
    ((initNumberedFull 3 3 pz33 cl33).isSome = true ∧
     ((initNumberedFull 3 3 pz33 cl33).getD (mkGame 3 3 pz33, 0, 0)).2.2
       = countConsumed (mkGame 3 3 pz33) (scanOrder 3 3)) :=
  ⟨rfl,
   (c4_clue_consumption 3 3 pz33 cl33 rfl).1.mpr (by decide),
   (c4_clue_consumption 3 3 pz33 cl33 rfl).2
     ((initNumberedFull 3 3 pz33 cl33).getD (mkGame 3 3 pz33, 0, 0)) rfl⟩

/-- C4, counterexample: bufC4 decodes to a file whose 2 by 1 grid AA has
one across start but num_clues = 0, so the clue consumption cannot equal
num_clues and the unchecked p.clues[0] access is out of bounds: init
panics, modelled by none. -/
theorem c4_counterexample :
    parse_all bufC4 = some (pfC4, []) ∧
    pfC4.num_clues = 0 ∧ pfC4.clues = [] ∧ initP pfC4 = none :=
  ⟨rfl, rfl, rfl, rfl⟩

theorem statusStep_congr (b : GameStatus) (c1 c2 : Cell)
    (h1 : c1.truth = c2.truth) (h2 : c1.guess = c2.guess) :
    statusStep b c1 = statusStep b c2 := by
  unfold statusStep
  rw [h1, h2]

theorem foldl_statusStep_congr :
    ∀ (l1 l2 : List Cell),
      (∀ i : Nat, (l1[i]?).map Cell.truth = (l2[i]?).map Cell.truth) →
      (∀ i : Nat, (l1[i]?).map Cell.guess = (l2[i]?).map Cell.guess) →
      ∀ b : GameStatus, l1.foldl statusStep b = l2.foldl statusStep b := by
  intro l1
  induction l1 with
  | nil =>
    intro l2 ht hu b
    cases l2 with
    | nil => rfl
    | cons c2 t2 =>
      have h0 := ht 0
      simp at h0
  | cons c1 t1 ih =>
    intro l2 ht hu b
    cases l2 with
    | nil =>
      have h0 := ht 0
      simp at h0
    | cons c2 t2 =>
      have h0t := ht 0
      have h0u := hu 0
      simp only [List.getElem?_cons_zero, Option.map_some',
        Option.some_inj] at h0t h0u
      rw [List.foldl_cons, List.foldl_cons,
        statusStep_congr b c1 c2 h0t h0u]
      exact ih t2 (fun i => by
          have := ht (i + 1)
          simpa using this)
        (fun i => by
          have := hu (i + 1)
          simpa using this) _

theorem get_status_eq_of_maps (g1 g2 : Game)
    (ht : ∀ i : Nat, (g1.grid[i]?).map Cell.truth
      = (g2.grid[i]?).map Cell.truth)
    (hu : ∀ i : Nat, (g1.grid[i]?).map Cell.guess
      = (g2.grid[i]?).map Cell.guess) :
    g1.get_status = g2.get_status := by
  unfold Game.get_status
  exact foldl_statusStep_congr g1.grid g2.grid ht hu _

theorem foldl_statusStep_blank :
    ∀ (l : List Cell), (∀ c ∈ l, c.truth = none ∧ c.guess = none) →
      ∀ s : GameStatus, l.foldl statusStep s = s := by
  intro l
  induction l with
  | nil =>
    intro _ s
    rfl
  | cons c t ih =>
    intro hall s
    have hc := hall c (List.mem_cons_self _ _)
    rw [List.foldl_cons]
    rw [show statusStep s c = s by
      unfold statusStep
      rw [hc.1, hc.2]
      simp]
    exact ih (fun c2 hc2 => hall c2 (List.mem_cons_of_mem _ hc2)) s

/-- C10: a grid with zero non-block cells reports cells, guesses and
errors all zero right after construction, is_solved holds with no guess
entered, and the first polling iteration with no pending input moves the
session to GameOver. -/
theorem c10_all_block (w h : Nat) (puzzle : List Char)
    (clues : List (List Char)) (hlen : puzzle.length = w * h)
    (hall : ∀ c ∈ puzzle, c = '.') :
    ∃ g0, initNumbered w h puzzle clues = some g0 ∧
      g0.get_status = { cells := 0, guesses := 0, errors := 0 } ∧
      g0.is_game_over = true ∧
      ∃ g1, pollCycle g0 [] = some g1 ∧ g1.mode = .GameOver := by
  have hblank : ∀ c ∈ (mkGame w h puzzle).grid,
      c.truth = none ∧ c.guess = none := by
    intro c hc
    have hc2 : c ∈ puzzle.map mkCell := hc
    rw [List.mem_map] at hc2
    obtain ⟨ch, hch, hmk⟩ := hc2
    have hdot := hall ch hch
    subst hmk
    subst hdot
    unfold mkCell
    simp
  have htruth : ∀ x y : Nat, ((mkGame w h puzzle).get x y).truth = none := by
    intro x y
    rw [game_get_eq, mkGame_grid_getElem?]
    rcases hv : puzzle[y * (mkGame w h puzzle).width + x]? with _ | ch
    · simp [blankCell]
    · have hch : ch ∈ puzzle := by
        have := List.getElem?_mem hv
        exact this
      have hdot := hall ch hch
      subst hdot
      simp [mkCell]
  have hA : ∀ x y : Nat, (mkGame w h puzzle).has_clue_across x y = false := by
    intro x y
    unfold Game.has_clue_across
    rw [htruth x y]
    simp
  have hD : ∀ x y : Nat, (mkGame w h puzzle).has_clue_down x y = false := by
    intro x y
    unfold Game.has_clue_down
    rw [htruth x y]
    simp
  have hcc : countConsumed (mkGame w h puzzle) (scanOrder w h) = 0 := by
    unfold countConsumed
    apply List.sum_eq_zero
    intro v hv
    rw [List.mem_map] at hv
    obtain ⟨q, _, hq⟩ := hv
    subst hq
    unfold consumeCount
    rw [hA, hD]
    simp
  have hsome : (initNumberedFull w h puzzle clues).isSome = true := by
    unfold initNumberedFull
    rw [numberCells_isSome]
    exact Or.inl hcc
  rcases hfull : initNumberedFull w h puzzle clues with _ | trip
  · rw [hfull] at hsome
    cases hsome
  · have hspec := numberCells_spec clues (scanOrder w h)
      (mkGame w h puzzle) 1 0 trip hfull
    obtain ⟨hw1, hh1, hm1, _, _, _, ht1, hu1, _, _⟩ := hspec
    refine ⟨trip.1, ?_, ?_, ?_, ?_⟩
    · unfold initNumbered
      rw [hfull]
      rfl
    · rw [get_status_eq_of_maps trip.1 (mkGame w h puzzle) ht1 hu1]
      unfold Game.get_status
      exact foldl_statusStep_blank (mkGame w h puzzle).grid hblank _
    · unfold Game.is_game_over
      rw [get_status_eq_of_maps trip.1 (mkGame w h puzzle) ht1 hu1]
      rw [show (mkGame w h puzzle).get_status
          = { cells := 0, guesses := 0, errors := 0 } from
        foldl_statusStep_blank (mkGame w h puzzle).grid hblank _]
      rfl
    · refine ⟨trip.1.game_over_mode, ?_, rfl⟩
      have hgo : trip.1.is_game_over = true := by
        unfold Game.is_game_over
        rw [get_status_eq_of_maps trip.1 (mkGame w h puzzle) ht1 hu1]
        rw [show (mkGame w h puzzle).get_status
            = { cells := 0, guesses := 0, errors := 0 } from
          foldl_statusStep_blank (mkGame w h puzzle).grid hblank _]
        rfl
      have hmode : trip.1.mode = Mode.Select := by
        rw [hm1]
        rfl
      show (match processKeys trip.1 [] with
        | some g1 => some (checkGameOver g1)
        | none => none) = _
      rw [show processKeys trip.1 [] = some trip.1 from rfl]
      dsimp only
      unfold checkGameOver
      rw [hmode]
      dsimp only
      rw [if_pos hgo]

/-- Witness for C10 at a concrete all-block 2 by 2 grid. -/
theorem c10_all_block_witness :
    ∃ g0, initNumbered 2 2 ['.', '.', '.', '.'] [] = some g0 ∧
      g0.get_status = { cells := 0, guesses := 0, errors := 0 } ∧
      g0.is_game_over = true ∧
      ∃ g1, pollCycle g0 [] = some g1 ∧ g1.mode = .GameOver :=
  c10_all_block 2 2 ['.', '.', '.', '.'] [] rfl (by decide)

/-! Grid, cursor and mode effect lemmas for every operation reachable
from stepKey. -/

theorem select_move_grid (g : Game) (d : Direction) :
    (g.select_move d).grid = g.grid := by
  cases d <;> rfl

theorem select_move_mode (g : Game) (d : Direction) :
    (g.select_move d).mode = g.mode := by
  cases d <;> rfl

theorem edit_move_grid (g : Game) (d : Direction) :
    (g.edit_move d).grid = g.grid := by
  cases d <;> rfl

theorem edit_move_mode (g : Game) (d : Direction) :
    (g.edit_move d).mode = g.mode := by
  cases d <;> rfl

theorem edit_mode_grid (g : Game) : g.edit_mode.grid = g.grid := by
  unfold Game.edit_mode
  split <;> rfl

theorem clues_scroll_up_grid (g : Game) :
    g.clues_scroll_up.grid = g.grid := by
  unfold Game.clues_scroll_up
  split <;> rfl

theorem clues_scroll_up_frame (g : Game) :
    g.clues_scroll_up.mode = g.mode ∧
    g.clues_scroll_up.cursor_x = g.cursor_x ∧
    g.clues_scroll_up.cursor_y = g.cursor_y ∧
    g.clues_scroll_up.width = g.width := by
  unfold Game.clues_scroll_up
  split <;> exact ⟨rfl, rfl, rfl, rfl⟩

theorem edit_prev_grid (g : Game) : g.edit_prev.grid = g.grid := by
  unfold Game.edit_prev
  split
  · exact edit_move_grid g .Left
  · exact edit_move_grid g .Up
  · rfl

theorem edit_next_mode (g : Game) : g.edit_next.mode = g.mode := by
  unfold Game.edit_next
  split
  · exact edit_move_mode g .Right
  · exact edit_move_mode g .Down
  · rfl

/-- A cursor-only or scroll-only change transports both invariants. -/
theorem inv_transport (g g2 : Game)
    (hgrid : g2.grid = g.grid) (hw : g2.width = g.width)
    (hcx : g2.cursor_x = g.cursor_x) (hcy : g2.cursor_y = g.cursor_y)
    (hmode : g2.mode = g.mode)
    (hE : editInv g) (hB : blockGuessNone g) :
    editInv g2 ∧ blockGuessNone g2 := by
  constructor
  · intro hmm
    rw [hmode] at hmm
    have hg : g2.get g2.cursor_x g2.cursor_y
        = g.get g.cursor_x g.cursor_y := by
      rw [game_get_eq, game_get_eq, hgrid, hw, hcx, hcy]
    rw [hg]
    exact hE hmm
  · intro i c hc htr
    rw [hgrid] at hc
    exact hB i c hc htr

/-- A state whose mode is not an edit mode satisfies editInv. -/
theorem editInv_nonedit (g2 : Game)
    (hmode : g2.mode ≠ .EditAcross ∧ g2.mode ≠ .EditDown) : editInv g2 := by
  intro hmm
  rcases hmm with hmm | hmm
  · exact absurd hmm hmode.1
  · exact absurd hmm hmode.2

theorem blockGuessNone_of_grid_eq (g g2 : Game) (hgrid : g2.grid = g.grid)
    (hB : blockGuessNone g) : blockGuessNone g2 := by
  intro i c hc htr
  rw [hgrid] at hc
  exact hB i c hc htr

/-- A block-stopping move in an edit mode lands on a non-block cell. -/
theorem edit_move_nonblock (g : Game) (d : Direction)
    (hcur : ((g.get g.cursor_x g.cursor_y).truth).isSome = true) :
    (((g.edit_move d).get (g.edit_move d).cursor_x
        (g.edit_move d).cursor_y).truth).isSome = true := by
  cases d
  · show ((g.get g.cursor_x
        (g.edit_down g.cursor_x g.cursor_y)).truth).isSome = true
    unfold Game.edit_down
    by_cases h0 : g.cursor_y + 1 = g.height
    · rw [if_pos h0]
      exact hcur
    · rw [if_neg h0]
      rcases ht : (g.get g.cursor_x (g.cursor_y + 1)).truth with _ | t
      · simp only [ht]
        exact hcur
      · simp only [ht]
        rfl
  · show ((g.get (g.edit_left g.cursor_x g.cursor_y)
        g.cursor_y).truth).isSome = true
    unfold Game.edit_left
    by_cases h0 : g.cursor_x = 0
    · rw [if_pos h0]
      exact hcur
    · rw [if_neg h0]
      rcases ht : (g.get (g.cursor_x - 1) g.cursor_y).truth with _ | t
      · simp only [ht]
        exact hcur
      · simp only [ht]
        rfl
  · show ((g.get (g.edit_right g.cursor_x g.cursor_y)
        g.cursor_y).truth).isSome = true
    unfold Game.edit_right
    by_cases h0 : g.cursor_x + 1 = g.width
    · rw [if_pos h0]
      exact hcur
    · rw [if_neg h0]
      rcases ht : (g.get (g.cursor_x + 1) g.cursor_y).truth with _ | t
      · simp only [ht]
        exact hcur
      · simp only [ht]
        rfl
  · show ((g.get g.cursor_x
        (g.edit_up g.cursor_x g.cursor_y)).truth).isSome = true
    unfold Game.edit_up
    by_cases h0 : g.cursor_y = 0
    · rw [if_pos h0]
      exact hcur
    · rw [if_neg h0]
      rcases ht : (g.get g.cursor_x (g.cursor_y - 1)).truth with _ | t
      · simp only [ht]
        exact hcur
      · simp only [ht]
        rfl

/-- Storing a cell at a non-block cursor keeps every block cell free of
guesses. -/
theorem blockGuessNone_set (g : Game) (c : Cell)
    (hc : c.truth = (g.get g.cursor_x g.cursor_y).truth)
    (hcur : ((g.get g.cursor_x g.cursor_y).truth).isSome = true)
    (hB : blockGuessNone g) :
    blockGuessNone (g.setCell g.cursor_x g.cursor_y c) := by
  intro i cc hcc htr
  rw [setCell_get?] at hcc
  by_cases hij : g.cursor_y * g.width + g.cursor_x = i
      ∧ g.cursor_y * g.width + g.cursor_x < g.grid.length
  · rw [if_pos hij] at hcc
    rw [Option.some_inj] at hcc
    subst hcc
    rw [hc] at htr
    rw [htr] at hcur
    cases hcur
  · rw [if_neg hij] at hcc
    exact hB i cc hcc htr

/-- Entering edit mode from Select keeps both invariants: the black-cell
guard refuses edit mode on a block cell. -/
theorem edit_mode_inv (g : Game) (hm : g.mode = .Select)
    (hB : blockGuessNone g) :
    editInv g.edit_mode ∧ blockGuessNone g.edit_mode := by
  refine ⟨?_, blockGuessNone_of_grid_eq g _ (edit_mode_grid g) hB⟩
  unfold Game.edit_mode
  by_cases hb : ((g.get g.cursor_x g.cursor_y).truth).isNone = true
  · rw [if_pos hb]
    intro hmm
    rw [hm] at hmm
    rcases hmm with hmm | hmm <;> cases hmm
  · rw [if_neg hb]
    intro _
    show ((g.get g.cursor_x g.cursor_y).truth).isSome = true
    rcases hv : (g.get g.cursor_x g.cursor_y).truth with _ | t
    · rw [hv] at hb
      exact absurd rfl hb
    · rfl

/-- One edit-mode key event preserves both invariants. -/
theorem stepKeyEdit_inv (g : Game) (k : Key)
    (hmode : g.mode = .EditAcross ∨ g.mode = .EditDown)
    (hE : editInv g) (hB : blockGuessNone g) :
    editInv (stepKeyEdit g k).1 ∧ blockGuessNone (stepKeyEdit g k).1 := by
  have hcur : ((g.get g.cursor_x g.cursor_y).truth).isSome = true := hE hmode
  have hmove : ∀ d : Direction,
      editInv (g.edit_move d) ∧ blockGuessNone (g.edit_move d) := by
    intro d
    refine ⟨?_, blockGuessNone_of_grid_eq g _ (edit_move_grid g d) hB⟩
    intro _
    exact edit_move_nonblock g d hcur
  cases k
  case Delete =>
    show editInv g.unguess ∧ blockGuessNone g.unguess
    have hBn : blockGuessNone g.unguess := by
      intro i cc hcc htr
      have hcc2 : (g.setCell g.cursor_x g.cursor_y
          { g.get g.cursor_x g.cursor_y with guess := none }).grid[i]?
          = some cc := hcc
      rw [setCell_get?] at hcc2
      by_cases hij : g.cursor_y * g.width + g.cursor_x = i
          ∧ g.cursor_y * g.width + g.cursor_x < g.grid.length
      · rw [if_pos hij] at hcc2
        rw [Option.some_inj] at hcc2
        subst hcc2
        rfl
      · rw [if_neg hij] at hcc2
        exact hB i cc hcc2 htr
    refine ⟨?_, hBn⟩
    intro _
    show (((g.setCell g.cursor_x g.cursor_y
        { g.get g.cursor_x g.cursor_y with guess := none }).get
        g.cursor_x g.cursor_y).truth).isSome = true
    rw [setCell_get_truth g g.cursor_x g.cursor_y g.cursor_x g.cursor_y
      { g.get g.cursor_x g.cursor_y with guess := none } rfl]
    exact hcur
  case PageUp =>
    show editInv g.clues_scroll_up ∧ blockGuessNone g.clues_scroll_up
    obtain ⟨m1, m2, m3, m4⟩ := clues_scroll_up_frame g
    exact inv_transport g _ (clues_scroll_up_grid g) m4 m2 m3 m1 hE hB
  case PageDown =>
    exact inv_transport g _ rfl rfl rfl rfl rfl hE hB
  case Backspace =>
    show editInv g.edit_prev ∧ blockGuessNone g.edit_prev
    unfold Game.edit_prev
    rcases hmode with hm | hm <;> rw [hm] <;> dsimp only
    · exact hmove .Left
    · exact hmove .Up
  case Left =>
    exact hmove .Left
  case Down =>
    exact hmove .Down
  case Up =>
    exact hmove .Up
  case Right =>
    exact hmove .Right
  case Esc =>
    refine ⟨editInv_nonedit _ ⟨?_, ?_⟩,
      blockGuessNone_of_grid_eq g _ rfl hB⟩ <;> intro hcon <;> cases hcon
  case Char c =>
    by_cases hnl : c = '\n'
    · have hstepc : stepKeyEdit g (Key.Char c) = (g.select_mode, true) := by
        show (if c = '\n' then (g.select_mode, true)
          else if c = ' ' then (g.edit_direction, true)
          else if charIsAlphanumeric c then (g.input c, true)
          else (g, true)) = _
        rw [if_pos hnl]
      rw [hstepc]
      refine ⟨editInv_nonedit _ ⟨?_, ?_⟩,
        blockGuessNone_of_grid_eq g _ rfl hB⟩ <;> intro hcon <;> cases hcon
    · by_cases hsp : c = ' '
      · have hstepc : stepKeyEdit g (Key.Char c)
            = (g.edit_direction, true) := by
          show (if c = '\n' then (g.select_mode, true)
            else if c = ' ' then (g.edit_direction, true)
            else if charIsAlphanumeric c then (g.input c, true)
            else (g, true)) = _
          rw [if_neg hnl, if_pos hsp]
        rw [hstepc]
        refine ⟨?_, blockGuessNone_of_grid_eq g _ rfl hB⟩
        intro _
        exact hcur
      · by_cases hal : charIsAlphanumeric c
        · have hstepc : stepKeyEdit g (Key.Char c) = (g.input c, true) := by
            show (if c = '\n' then (g.select_mode, true)
              else if c = ' ' then (g.edit_direction, true)
              else if charIsAlphanumeric c then (g.input c, true)
              else (g, true)) = _
            rw [if_neg hnl, if_neg hsp, if_pos hal]
          rw [hstepc]
          have hcur2 : (((inputStore g c).get (inputStore g c).cursor_x
              (inputStore g c).cursor_y).truth).isSome = true := by
            show (((g.setCell g.cursor_x g.cursor_y
                { g.get g.cursor_x g.cursor_y with
                    guess := some (charUppercaseFirst c) }).get
                g.cursor_x g.cursor_y).truth).isSome = true
            rw [setCell_get_truth g g.cursor_x g.cursor_y g.cursor_x
              g.cursor_y
              { g.get g.cursor_x g.cursor_y with
                  guess := some (charUppercaseFirst c) } rfl]
            exact hcur
          have hBs : blockGuessNone (inputStore g c) :=
            blockGuessNone_set g _ rfl hcur hB
          have hmode2 : (inputStore g c).mode = .EditAcross
              ∨ (inputStore g c).mode = .EditDown := hmode
          show editInv (g.input c) ∧ blockGuessNone (g.input c)
          rw [show g.input c = (inputStore g c).edit_next from rfl]
          unfold Game.edit_next
          rcases hmode2 with hm | hm <;> rw [hm] <;> dsimp only
          · refine ⟨?_, blockGuessNone_of_grid_eq (inputStore g c) _
              (edit_move_grid _ .Right) hBs⟩
            intro _
            exact edit_move_nonblock (inputStore g c) .Right hcur2
          · refine ⟨?_, blockGuessNone_of_grid_eq (inputStore g c) _
              (edit_move_grid _ .Down) hBs⟩
            intro _
            exact edit_move_nonblock (inputStore g c) .Down hcur2
        · have hstepc : stepKeyEdit g (Key.Char c) = (g, true) := by
            show (if c = '\n' then (g.select_mode, true)
              else if c = ' ' then (g.edit_direction, true)
              else if charIsAlphanumeric c then (g.input c, true)
              else (g, true)) = _
            rw [if_neg hnl, if_neg hsp, if_neg hal]
          rw [hstepc]
          exact ⟨hE, hB⟩
  all_goals exact ⟨hE, hB⟩

/-- One Select-mode key event preserves both invariants. -/
theorem stepKeySelect_inv (g : Game) (k : Key) (hm : g.mode = .Select)
    (hB : blockGuessNone g) :
    editInv (stepKeySelect g k).1
      ∧ blockGuessNone (stepKeySelect g k).1 := by
  have hsel : ∀ g2 : Game, g2.mode = .Select → editInv g2 := by
    intro g2 hm2
    apply editInv_nonedit
    constructor <;> intro hcon <;> rw [hm2] at hcon <;> cases hcon
  have hpau : ∀ g2 : Game, g2.mode = .Pause → editInv g2 := by
    intro g2 hm2
    apply editInv_nonedit
    constructor <;> intro hcon <;> rw [hm2] at hcon <;> cases hcon
  have hmv : ∀ d : Direction,
      editInv (g.select_move d) ∧ blockGuessNone (g.select_move d) := by
    intro d
    refine ⟨hsel _ ?_, blockGuessNone_of_grid_eq g _
      (select_move_grid g d) hB⟩
    rw [select_move_mode g d]
    exact hm
  cases k
  case PageUp =>
    obtain ⟨m1, _, _, _⟩ := clues_scroll_up_frame g
    constructor
    · apply hsel
      show g.clues_scroll_up.mode = Mode.Select
      rw [m1]
      exact hm
    · exact blockGuessNone_of_grid_eq g _ (clues_scroll_up_grid g) hB
  case PageDown =>
    exact ⟨hsel _ hm, blockGuessNone_of_grid_eq g _ rfl hB⟩
  case Left => exact hmv .Left
  case Down => exact hmv .Down
  case Up => exact hmv .Up
  case Right => exact hmv .Right
  case Esc =>
    exact ⟨hpau _ rfl, blockGuessNone_of_grid_eq g _ rfl hB⟩
  case Ctrl c =>
    by_cases hc : c = 'c'
    · have hstepc : stepKeySelect g (Key.Ctrl c) = (g.pause, true) := by
        show (if c = 'c' then (g.pause, true) else (g, true)) = _
        rw [if_pos hc]
      rw [hstepc]
      exact ⟨hpau _ rfl, blockGuessNone_of_grid_eq g _ rfl hB⟩
    · have hstepc : stepKeySelect g (Key.Ctrl c) = (g, true) := by
        show (if c = 'c' then (g.pause, true) else (g, true)) = _
        rw [if_neg hc]
      rw [hstepc]
      exact ⟨hsel _ hm, hB⟩
  case Char c =>
    have hchain : stepKeySelect g (Key.Char c)
        = (if c = 'h' ∨ c = 'a' then (g.select_move .Left, true)
          else if c = 'j' ∨ c = 's' then (g.select_move .Down, true)
          else if c = 'k' ∨ c = 'w' then (g.select_move .Up, true)
          else if c = 'l' ∨ c = 'd' then (g.select_move .Right, true)
          else if c = 'q' ∨ c = 'p' then (g.pause, true)
          else if c = 'e' then (g.toggle_hint_num_errors, true)
          else if c = '\n' ∨ c = 'i' then (g.edit_mode, true)
          else (g, true)) := rfl
    rw [hchain]
    by_cases h1 : c = 'h' ∨ c = 'a'
    · rw [if_pos h1]
      exact hmv .Left
    · rw [if_neg h1]
      by_cases h2 : c = 'j' ∨ c = 's'
      · rw [if_pos h2]
        exact hmv .Down
      · rw [if_neg h2]
        by_cases h3 : c = 'k' ∨ c = 'w'
        · rw [if_pos h3]
          exact hmv .Up
        · rw [if_neg h3]
          by_cases h4 : c = 'l' ∨ c = 'd'
          · rw [if_pos h4]
            exact hmv .Right
          · rw [if_neg h4]
            by_cases h5 : c = 'q' ∨ c = 'p'
            · rw [if_pos h5]
              exact ⟨hpau _ rfl, blockGuessNone_of_grid_eq g _ rfl hB⟩
            · rw [if_neg h5]
              by_cases h6 : c = 'e'
              · rw [if_pos h6]
                exact ⟨hsel _ hm, blockGuessNone_of_grid_eq g _ rfl hB⟩
              · rw [if_neg h6]
                by_cases h7 : c = '\n' ∨ c = 'i'
                · rw [if_pos h7]
                  exact edit_mode_inv g hm hB
                · rw [if_neg h7]
                  exact ⟨hsel _ hm, hB⟩
  all_goals exact ⟨hsel _ hm, hB⟩

/-- One Pause-mode key event preserves both invariants. -/
theorem stepKeyPause_inv (g : Game) (k : Key) (hm : g.mode = .Pause)
    (hB : blockGuessNone g) :
    editInv (stepKeyPause g k).1 ∧ blockGuessNone (stepKeyPause g k).1 := by
  have hne : ∀ g2 : Game, g2.mode = .Select ∨ g2.mode = .Pause →
      editInv g2 := by
    intro g2 hm2
    apply editInv_nonedit
    constructor <;> intro hcon <;>
      rcases hm2 with h | h <;> rw [h] at hcon <;> cases hcon
  cases k
  case Char c =>
    have hchain : stepKeyPause g (Key.Char c)
        = (if c = 'p' ∨ c = '\n' then (g.unpause, true)
          else if c = 'q' then (g, false)
          else (g, true)) := rfl
    rw [hchain]
    by_cases h1 : c = 'p' ∨ c = '\n'
    · rw [if_pos h1]
      exact ⟨hne _ (Or.inl rfl), blockGuessNone_of_grid_eq g _ rfl hB⟩
    · rw [if_neg h1]
      by_cases h2 : c = 'q'
      · rw [if_pos h2]
        exact ⟨hne _ (Or.inr hm), hB⟩
      · rw [if_neg h2]
        exact ⟨hne _ (Or.inr hm), hB⟩
  case Esc =>
    exact ⟨hne _ (Or.inl rfl), blockGuessNone_of_grid_eq g _ rfl hB⟩
  case Ctrl c =>
    by_cases hc : c = 'c'
    · have hstepc : stepKeyPause g (Key.Ctrl c) = (g, false) := by
        show (if c = 'c' then (g, false) else (g, true)) = _
        rw [if_pos hc]
      rw [hstepc]
      exact ⟨hne _ (Or.inr hm), hB⟩
    · have hstepc : stepKeyPause g (Key.Ctrl c) = (g, true) := by
        show (if c = 'c' then (g, false) else (g, true)) = _
        rw [if_neg hc]
      rw [hstepc]
      exact ⟨hne _ (Or.inr hm), hB⟩
  all_goals exact ⟨hne _ (Or.inr hm), hB⟩

/-- Any key event in any mode preserves both C9 invariants. -/
theorem stepKey_inv (g : Game) (k : Key) (hE : editInv g)
    (hB : blockGuessNone g) :
    editInv (stepKey g k).1 ∧ blockGuessNone (stepKey g k).1 := by
  rcases hm : g.mode
  case EditAcross =>
    have hs : stepKey g k = stepKeyEdit g k := by
      unfold stepKey
      rw [hm]
    rw [hs]
    exact stepKeyEdit_inv g k (Or.inl hm) hE hB
  case EditDown =>
    have hs : stepKey g k = stepKeyEdit g k := by
      unfold stepKey
      rw [hm]
    rw [hs]
    exact stepKeyEdit_inv g k (Or.inr hm) hE hB
  case Select =>
    have hs : stepKey g k = stepKeySelect g k := by
      unfold stepKey
      rw [hm]
    rw [hs]
    exact stepKeySelect_inv g k hm hB
  case Pause =>
    have hs : stepKey g k = stepKeyPause g k := by
      unfold stepKey
      rw [hm]
    rw [hs]
    exact stepKeyPause_inv g k hm hB
  case GameOver =>
    have hs : stepKey g k = (g, false) := by
      unfold stepKey
      rw [hm]
    rw [hs]
    exact ⟨hE, hB⟩

theorem checkGameOver_inv (g : Game) (hE : editInv g)
    (hB : blockGuessNone g) :
    editInv (checkGameOver g) ∧ blockGuessNone (checkGameOver g) := by
  unfold checkGameOver
  split
  · exact ⟨hE, hB⟩
  · split
    · refine ⟨editInv_nonedit _ ⟨?_, ?_⟩,
        blockGuessNone_of_grid_eq g _ rfl hB⟩ <;>
        intro hcon <;> cases hcon
    · exact ⟨hE, hB⟩

theorem processKeys_inv :
    ∀ (ks : List Key) (g g1 : Game), processKeys g ks = some g1 →
      editInv g → blockGuessNone g → editInv g1 ∧ blockGuessNone g1 := by
  intro ks
  induction ks with
  | nil =>
    intro g g1 h hE hB
    unfold processKeys at h
    rw [Option.some_inj] at h
    subst h
    exact ⟨hE, hB⟩
  | cons k ks ih =>
    intro g g1 h hE hB
    unfold processKeys at h
    rcases hs : stepKey g k with ⟨g2, b⟩
    cases b
    · simp only [hs] at h
      cases h
    · simp only [hs] at h
      have hstep := stepKey_inv g k hE hB
      rw [hs] at hstep
      exact ih g2 g1 h hstep.1 hstep.2

theorem pollCycle_inv (g g1 : Game) (ks : List Key)
    (h : pollCycle g ks = some g1) (hE : editInv g)
    (hB : blockGuessNone g) : editInv g1 ∧ blockGuessNone g1 := by
  unfold pollCycle at h
  rcases hp : processKeys g ks with _ | g2
  · rw [hp] at h
    cases h
  · rw [hp, Option.some_inj] at h
    subst h
    have h2 := processKeys_inv ks g g2 hp hE hB
    exact checkGameOver_inv g2 h2.1 h2.2

theorem reachable_inv (g0 g : Game) (hr : Reachable g0 g)
    (hE0 : editInv g0) (hB0 : blockGuessNone g0) :
    editInv g ∧ blockGuessNone g := by
  induction hr with
  | refl => exact ⟨hE0, hB0⟩
  | step ks _ hpoll ih => exact pollCycle_inv _ _ ks hpoll ih.1 ih.2

/-- Every grid change a key event can make is a store at the cursor that
keeps the truth of the stored cell, and happens only in an edit mode. -/
theorem stepKey_grid_cases (g : Game) (k : Key) :
    ((stepKey g k).1).grid = g.grid ∨
    ((g.mode = .EditAcross ∨ g.mode = .EditDown) ∧
      ∃ cnew : Cell, cnew.truth = (g.get g.cursor_x g.cursor_y).truth ∧
        ((stepKey g k).1).grid
          = g.grid.set (g.cursor_y * g.width + g.cursor_x) cnew) := by
  rcases hm : g.mode
  case Pause =>
    have hs : stepKey g k = stepKeyPause g k := by
      unfold stepKey
      rw [hm]
    rw [hs]
    left
    cases k
    case Char c =>
      show (if c = 'p' ∨ c = '\n' then (g.unpause, true)
        else if c = 'q' then (g, false) else (g, true)).1.grid = g.grid
      split_ifs <;> rfl
    case Ctrl c =>
      show (if c = 'c' then (g, false) else (g, true)).1.grid = g.grid
      split_ifs <;> rfl
    all_goals rfl
  case Select =>
    have hs : stepKey g k = stepKeySelect g k := by
      unfold stepKey
      rw [hm]
    rw [hs]
    left
    cases k
    case PageUp => exact clues_scroll_up_grid g
    case Char c =>
      show (if c = 'h' ∨ c = 'a' then (g.select_move .Left, true)
        else if c = 'j' ∨ c = 's' then (g.select_move .Down, true)
        else if c = 'k' ∨ c = 'w' then (g.select_move .Up, true)
        else if c = 'l' ∨ c = 'd' then (g.select_move .Right, true)
        else if c = 'q' ∨ c = 'p' then (g.pause, true)
        else if c = 'e' then (g.toggle_hint_num_errors, true)
        else if c = '\n' ∨ c = 'i' then (g.edit_mode, true)
        else (g, true)).1.grid = g.grid
      split_ifs <;>
        first
          | rfl
          | exact select_move_grid g _
          | exact edit_mode_grid g
    case Ctrl c =>
      show (if c = 'c' then (g.pause, true) else (g, true)).1.grid = g.grid
      split_ifs <;> rfl
    all_goals first | rfl | exact select_move_grid g _
  case GameOver =>
    have hs : stepKey g k = (g, false) := by
      unfold stepKey
      rw [hm]
    rw [hs]
    left
    rfl
  case EditAcross =>
    have hs : stepKey g k = stepKeyEdit g k := by
      unfold stepKey
      rw [hm]
    rw [hs]
    cases k
    case Delete =>
      right
      exact ⟨Or.inl rfl,
        { g.get g.cursor_x g.cursor_y with guess := none }, rfl, rfl⟩
    case PageUp =>
      left
      exact clues_scroll_up_grid g
    case Backspace =>
      left
      exact edit_prev_grid g
    case Char c =>
      by_cases hnl : c = '\n'
      · left
        show (if c = '\n' then (g.select_mode, true)
          else if c = ' ' then (g.edit_direction, true)
          else if charIsAlphanumeric c then (g.input c, true)
          else (g, true)).1.grid = g.grid
        rw [if_pos hnl]
        rfl
      · by_cases hsp : c = ' '
        · left
          show (if c = '\n' then (g.select_mode, true)
            else if c = ' ' then (g.edit_direction, true)
            else if charIsAlphanumeric c then (g.input c, true)
            else (g, true)).1.grid = g.grid
          rw [if_neg hnl, if_pos hsp]
          rfl
        · by_cases hal : charIsAlphanumeric c
          · right
            refine ⟨Or.inl rfl,
              { g.get g.cursor_x g.cursor_y with
                  guess := some (charUppercaseFirst c) }, rfl, ?_⟩
            show (if c = '\n' then (g.select_mode, true)
              else if c = ' ' then (g.edit_direction, true)
              else if charIsAlphanumeric c then (g.input c, true)
              else (g, true)).1.grid = _
            rw [if_neg hnl, if_neg hsp, if_pos hal]
            show (g.input c).grid = _
            rw [show g.input c = (inputStore g c).edit_next from rfl,
              edit_next_grid]
            rfl
          · left
            show (if c = '\n' then (g.select_mode, true)
              else if c = ' ' then (g.edit_direction, true)
              else if charIsAlphanumeric c then (g.input c, true)
              else (g, true)).1.grid = g.grid
            rw [if_neg hnl, if_neg hsp, if_neg hal]
    all_goals left
    all_goals first | rfl | exact edit_move_grid g _
  case EditDown =>
    have hs : stepKey g k = stepKeyEdit g k := by
      unfold stepKey
      rw [hm]
    rw [hs]
    cases k
    case Delete =>
      right
      exact ⟨Or.inr rfl,
        { g.get g.cursor_x g.cursor_y with guess := none }, rfl, rfl⟩
    case PageUp =>
      left
      exact clues_scroll_up_grid g
    case Backspace =>
      left
      exact edit_prev_grid g
    case Char c =>
      by_cases hnl : c = '\n'
      · left
        show (if c = '\n' then (g.select_mode, true)
          else if c = ' ' then (g.edit_direction, true)
          else if charIsAlphanumeric c then (g.input c, true)
          else (g, true)).1.grid = g.grid
        rw [if_pos hnl]
        rfl
      · by_cases hsp : c = ' '
        · left
          show (if c = '\n' then (g.select_mode, true)
            else if c = ' ' then (g.edit_direction, true)
            else if charIsAlphanumeric c then (g.input c, true)
            else (g, true)).1.grid = g.grid
          rw [if_neg hnl, if_pos hsp]
          rfl
        · by_cases hal : charIsAlphanumeric c
          · right
            refine ⟨Or.inr rfl,
              { g.get g.cursor_x g.cursor_y with
                  guess := some (charUppercaseFirst c) }, rfl, ?_⟩
            show (if c = '\n' then (g.select_mode, true)
              else if c = ' ' then (g.edit_direction, true)
              else if charIsAlphanumeric c then (g.input c, true)
              else (g, true)).1.grid = _
            rw [if_neg hnl, if_neg hsp, if_pos hal]
            show (g.input c).grid = _
            rw [show g.input c = (inputStore g c).edit_next from rfl,
              edit_next_grid]
            rfl
          · left
            show (if c = '\n' then (g.select_mode, true)
              else if c = ' ' then (g.edit_direction, true)
              else if charIsAlphanumeric c then (g.input c, true)
              else (g, true)).1.grid = g.grid
            rw [if_neg hnl, if_neg hsp, if_neg hal]
    all_goals left
    all_goals first | rfl | exact edit_move_grid g _

/-- A block cell is untouched by any key event when the edit invariant
holds. -/
theorem stepKey_block_cell (g : Game) (k : Key) (hE : editInv g)
    (i : Nat) (c : Cell) (hc : g.grid[i]? = some c)
    (htr : c.truth = none) :
    ((stepKey g k).1).grid[i]? = some c := by
  rcases stepKey_grid_cases g k with hg | ⟨hmode, cnew, hct, hg⟩
  · rw [hg]
    exact hc
  · rw [hg]
    have hcur := hE hmode
    rw [List.getElem?_set]
    by_cases hij : g.cursor_y * g.width + g.cursor_x = i
    · exfalso
      subst hij
      have hgc : g.get g.cursor_x g.cursor_y = c := by
        rw [game_get_eq, hc]
        rfl
      rw [hgc, htr] at hcur
      cases hcur
    · rw [if_neg hij]
      exact hc

/-- The state init produces satisfies both C9 invariants: Select mode,
and no guesses at all. -/
theorem initNumbered_inv (w h : Nat) (puzzle : List Char)
    (clues : List (List Char)) (g0 : Game)
    (hinit : initNumbered w h puzzle clues = some g0) :
    editInv g0 ∧ blockGuessNone g0 := by
  unfold initNumbered at hinit
  rcases hfull : initNumberedFull w h puzzle clues with _ | trip
  · rw [hfull] at hinit
    cases hinit
  · rw [hfull] at hinit
    simp only [Option.map_some', Option.some_inj] at hinit
    unfold initNumberedFull at hfull
    have hspec := numberCells_spec clues (scanOrder w h)
      (mkGame w h puzzle) 1 0 trip hfull
    obtain ⟨_, _, hm1, _, _, _, _, hu1, _, _⟩ := hspec
    subst hinit
    constructor
    · apply editInv_nonedit
      constructor <;> intro hcon <;> rw [hm1] at hcon <;> cases hcon
    · intro i c hc htr
      have hu := hu1 i
      rw [hc, mkGame_grid_getElem?] at hu
      rcases hch : puzzle[i]? with _ | ch
      · rw [hch] at hu
        cases hu
      · rw [hch] at hu
        simp only [Option.map_some', Option.some_inj] at hu
        rw [hu]
        rfl

/-- C9: in every reachable state in an edit mode the cell under the
cursor is non-block, so entering a guess never writes into a block cell;
every block cell keeps its truth and its absent guess across every input
event. -/
theorem c9_edit_cursor_nonblock (w h : Nat) (puzzle : List Char)
    (clues : List (List Char)) (g0 g : Game)
    (hinit : initNumbered w h puzzle clues = some g0)
    (hr : Reachable g0 g) :
    ((g.mode = .EditAcross ∨ g.mode = .EditDown) →
      ((g.get g.cursor_x g.cursor_y).truth).isSome = true) ∧
    (∀ i : Nat, ∀ c : Cell, g.grid[i]? = some c → c.truth = none →
      c.guess = none ∧ ∀ k : Key, ((stepKey g k).1).grid[i]? = some c) := by
  obtain ⟨hE0, hB0⟩ := initNumbered_inv w h puzzle clues g0 hinit
  obtain ⟨hE, hB⟩ := reachable_inv g0 g hr hE0 hB0
  refine ⟨hE, ?_⟩
  intro i c hc htr
  exact ⟨hB i c hc htr,
    fun k => stepKey_block_cell g k hE i c hc htr⟩

/-- Witness for C9 at a state of the 3 by 3 fixture reached by entering
edit mode on the start cell. -/
theorem c9_edit_cursor_nonblock_witness :
    ((g33e.mode = .EditAcross ∨ g33e.mode = .EditDown) →
      ((g33e.get g33e.cursor_x g33e.cursor_y).truth).isSome = true) ∧
    (∀ i : Nat, ∀ c : Cell, g33e.grid[i]? = some c → c.truth = none →
      c.guess = none ∧
      ∀ k : Key, ((stepKey g33e k).1).grid[i]? = some c) :=
  c9_edit_cursor_nonblock 3 3 pz33 cl33 g33 g33e rfl
    (Reachable.step [Key.Char 'i'] Reachable.refl rfl)
